import Mathlib

/-!
# A card-shedding game engine: model and verification

Shallow embedding of `src/index.js` (classes `Card`, `Deck`, `Player`, `Game`
and the main script) followed by theorems about it.

Modelling conventions.

* A card suit and a card rank are enumerations of the strings the source
  uses (`createDeck` is the only place that constructs cards).
* A JavaScript array is a `List`, in array order: `push` appends at the end,
  `pop` removes the last element.
* A value that is either a `Card` or `undefined` is an `Option Card`
  (`none` is `undefined`); hands, face-down sets and table cards hold such
  values because `Deck.deal` returns `undefined` on an empty deck.
* `Player` objects have identity: `Game.heap` maps a reference to the
  `Player` object behind it, and `Game.players` (the active list) holds
  references. `new Player(i)` is the object behind reference `i`. `splice`
  on the active list removes a reference; the object itself lives on, and
  a variable such as `currentPlayer` of `playTurn` keeps denoting it.
* `currentPlayerIndex` is a JavaScript number that is a natural number or
  `NaN` (`x % 0`); `none` is `NaN`.
* `prompt` is the only input. One answer to the action prompt is an
  `Action`; the answer to the follow-up prompt of `handleDraw` is carried by
  `Action.draw`. `console.log` has no effect on the state and is dropped,
  except that evaluating its argument may throw a `TypeError`, which is
  modelled.
* `Math.random` is a choice function `pick`: `pick i` is the value of
  `Math.floor(Math.random() * (i + 1))` at loop index `i`, reduced into
  `0..i`.
-/

namespace PoopieHead

/-! ## Data model -/

inductive Suit
  | Hearts | Diamonds | Clubs | Spades
  deriving DecidableEq, Repr

/-- The rank strings `'2'` … `'10'`, `'J'`, `'Q'`, `'K'`, `'A'` (field `value` of a card). -/
inductive Rank
  | r2 | r3 | r4 | r5 | r6 | r7 | r8 | r9 | r10 | J | Q | K | A
  deriving DecidableEq, Repr

structure Card where
  suit : Suit
  value : Rank
  deriving DecidableEq, Repr

/-- A JavaScript value that is a `Card` or `undefined`. -/
abbrev Slot := Option Card

structure Deck where
  cards : List Card
  deriving DecidableEq, Repr

structure Player where
  id : Nat
  hand : List Slot
  faceDownCards : List Slot
  deriving DecidableEq, Repr

structure Game where
  /-- The `Player` object behind each reference. -/
  heap : Nat → Player
  /-- The array `this.players`: references to the active players. -/
  players : List Nat
  deck : Deck
  tableCards : List Slot
  currentPlayerIndex : Option Nat
  lastPlayedCard : Option Card
  playedCardsDeck : List Card

/-! ## Deck -/

def Deck.suits : List Suit := [.Hearts, .Diamonds, .Clubs, .Spades]

def Deck.values : List Rank :=
  [.r2, .r3, .r4, .r5, .r6, .r7, .r8, .r9, .r10, .J, .Q, .K, .A]

/-- The inner loop of `createDeck`: one card per rank, pushed in order. -/
def Deck.suitCards (s : Suit) : List Card := Deck.values.map (fun v => ⟨s, v⟩)

/-- `new Deck()`: `createDeck` pushes, suit by suit, one card per rank. -/
def Deck.createDeck : Deck := ⟨Deck.suits.flatMap Deck.suitCards⟩

/-- `[cards[i], cards[j]] = [cards[j], cards[i]]`. -/
def Deck.swap (cards : List Card) (i j : Nat) : List Card :=
  match cards[i]?, cards[j]? with
  | some a, some b => (cards.set i b).set j a
  | _, _ => cards

/-- The loop of `shuffle`, entered with loop variable `i`; it stops when `i > 0` fails. -/
def Deck.shuffleLoop (pick : Nat → Nat) : Nat → List Card → List Card
  | 0, cards => cards
  | i + 1, cards => Deck.shuffleLoop pick i (Deck.swap cards (i + 1) (pick (i + 1) % (i + 2)))

def Deck.shuffle (pick : Nat → Nat) (d : Deck) : Deck :=
  ⟨Deck.shuffleLoop pick (d.cards.length - 1) d.cards⟩

/-- `deal()` is `this.cards.pop()`: the last card (or `undefined`) and the shortened deck. -/
def Deck.deal (d : Deck) : Slot × Deck :=
  (d.cards.getLast?, ⟨d.cards.dropLast⟩)

/-! ## Player -/

/-- `drawCard(deck)`: the dealt value is pushed on the hand and returned. -/
def Player.drawCard (p : Player) (d : Deck) : Slot × Player × Deck :=
  let r := d.deal
  (r.1, { p with hand := p.hand ++ [r.1] }, r.2)

/-- The start position `Array.prototype.splice` derives from an integer argument. -/
def spliceStart (len : Nat) (start : Int) : Nat :=
  if start < 0 then (len - start.natAbs) else min start.toNat len

/-- `playCard(cardIndex)` is `this.hand.splice(cardIndex, 1)[0]`. -/
def Player.playCard (p : Player) (cardIndex : Int) : Slot × Player :=
  let k := spliceStart p.hand.length cardIndex
  ((p.hand[k]?).join, { p with hand := p.hand.eraseIdx k })

/-! ## Game: helpers for references and numbers -/

/-- The object behind a player reference. -/
def Game.obj (g : Game) (r : Nat) : Player := g.heap r

/-- Store a new value for the object behind a reference. -/
def Game.setObj (g : Game) (r : Nat) (p : Player) : Game :=
  { g with heap := fun x => if x = r then p else g.heap x }

/-- JavaScript `a % n` on a number that is a natural number or `NaN`. -/
def jsMod (a : Option Nat) (n : Nat) : Option Nat :=
  match a with
  | none => none
  | some k => if n = 0 then none else some (k % n)

/-- `this.players[this.currentPlayerIndex]`: a reference, or `undefined`. -/
def Game.currentPlayer (g : Game) : Option Nat :=
  match g.currentPlayerIndex with
  | none => none
  | some i => g.players[i]?

/-! ## Game: validity rule -/

def Game.getCardNumericValue (card : Card) : Nat :=
  match card.value with
  | .r2 => 15 | .r3 => 3 | .r4 => 4 | .r5 => 5 | .r6 => 6 | .r7 => 7 | .r8 => 8
  | .r9 => 9 | .r10 => 10 | .J => 11 | .Q => 12 | .K => 13 | .A => 14

def Game.isValidPlay (g : Game) (card : Card) : Bool :=
  match g.lastPlayedCard with
  | none => true
  | some last =>
    if card.value = .r2 ∨ last.value = .r2 then true
    else if card.value = .r10 then true
    else
      let lastValue := Game.getCardNumericValue last
      let currentValue := Game.getCardNumericValue card
      if last.value = .r7 then decide (currentValue ≤ lastValue)
      else decide (currentValue ≥ lastValue)

/-! ## Game: construction -/

/-- `initPlayers(playerCount)`: the objects `new Player(i)`, `i = 0 .. playerCount-1`, are
created (behind the references `0 .. playerCount-1`) and pushed on `players`. -/
def Game.initPlayers (g : Game) (playerCount : Nat) : Game :=
  { g with
    heap := fun r => if r < playerCount then ⟨r, [], []⟩ else g.heap r
    players := g.players ++ List.range playerCount }

/-- `player.drawCard(this.deck)` for the player behind `r`, as an effect on the game:
the returned value and the new state. -/
def Game.drawCard (g : Game) (r : Nat) : Slot × Game :=
  let d := (g.obj r).drawCard g.deck
  (d.1, { g.setObj r d.2.1 with deck := d.2.2 })

/-- `player.faceDownCards.push(this.deck.deal())` for the player behind `r`. -/
def Game.dealFaceDown (g : Game) (r : Nat) : Game :=
  let d := g.deck.deal
  { g.setObj r { g.obj r with faceDownCards := (g.obj r).faceDownCards ++ [d.1] } with
    deck := d.2 }

/-- One pass of the inner loop of `dealInitialCards` for the player behind `r`:
`player.faceDownCards.push(this.deck.deal()); player.drawCard(this.deck)`. -/
def Game.dealRound (g : Game) (r : Nat) : Game :=
  ((g.dealFaceDown r).drawCard r).2

/-- One pass of the last loop of `dealInitialCards`: `this.tableCards.push(this.deck.deal())`. -/
def Game.dealTable (g : Game) : Game :=
  let d := g.deck.deal
  { g with tableCards := g.tableCards ++ [d.1], deck := d.2 }

/-- The inner loop of `dealInitialCards` for the player behind `r`: three passes. -/
def Game.dealPlayer (g : Game) (r : Nat) : Game :=
  ((g.dealRound r).dealRound r).dealRound r

def Game.dealInitialCards (g : Game) : Game :=
  let g1 := g.players.foldl Game.dealPlayer g
  ((g1.dealTable).dealTable).dealTable

/-- The fields as the constructor of `Game` sets them before it calls `initPlayers`: no
players, a shuffled new deck, no table cards, index 0. (The pile fields, which the
constructor assigns last, are given their values here already.) -/
def Game.blank (pick : Nat → Nat) : Game :=
  { heap := fun r => ⟨r, [], []⟩, players := [], deck := Deck.createDeck.shuffle pick,
    tableCards := [], currentPlayerIndex := some 0, lastPlayedCard := none,
    playedCardsDeck := [] }

/-- `new Game(playerCount)`. -/
def Game.new (playerCount : Nat) (pick : Nat → Nat) : Game :=
  let g1 := ((Game.blank pick).initPlayers playerCount).dealInitialCards
  { g1 with lastPlayedCard := none, playedCardsDeck := [] }

/-! ## Game: starting player -/

/-- The three local variables of `setStartingPlayer`. `lowestCardValue = none` is
`Infinity`, `lowestSuit = none` is the string `'Z'`. -/
structure Lowest where
  lowestCardValue : Option Nat
  lowestSuit : Option Suit
  startingPlayerIndex : Nat
  deriving DecidableEq, Repr

/-- Position of a suit name in alphabetical (string) order. -/
def Suit.ord : Suit → Nat
  | .Clubs => 0 | .Diamonds => 1 | .Hearts => 2 | .Spades => 3

/-- `card.suit < lowestSuit` on strings; every suit name is below `'Z'`. -/
def suitLess (s : Suit) (lowestSuit : Option Suit) : Bool :=
  match lowestSuit with
  | none => true
  | some t => decide (s.ord < t.ord)

/-- `cardValue < lowestCardValue`, the right side possibly `Infinity`. -/
def valueLess (v : Nat) (lowestCardValue : Option Nat) : Bool :=
  match lowestCardValue with
  | none => true
  | some w => decide (v < w)

/-- The inner loop of `setStartingPlayer` over the hand of player number `i`;
`none` is the `TypeError` of `getCardNumericValue(undefined)`. -/
def Game.scanHand (i : Nat) : List Slot → Lowest → Option Lowest
  | [], acc => some acc
  | none :: _, _ => none
  | some card :: rest, acc =>
    let cardValue := Game.getCardNumericValue card
    if valueLess cardValue acc.lowestCardValue ∨
        (acc.lowestCardValue = some cardValue ∧ suitLess card.suit acc.lowestSuit) then
      Game.scanHand i rest ⟨some cardValue, some card.suit, i⟩
    else Game.scanHand i rest acc

/-- The outer loop of `setStartingPlayer`, at loop index `i`, over the remaining players. -/
def Game.scanPlayers (g : Game) : Nat → List Nat → Lowest → Option Lowest
  | _, [], acc => some acc
  | i, r :: rs, acc =>
    match Game.scanHand i (g.obj r).hand acc with
    | none => none
    | some acc1 => Game.scanPlayers g (i + 1) rs acc1

/-- `setStartingPlayer()`; `none` when it throws. -/
def Game.setStartingPlayer (g : Game) : Option Game :=
  match g.scanPlayers 0 g.players ⟨none, none, 0⟩ with
  | none => none
  | some acc => some { g with currentPlayerIndex := some acc.startingPlayerIndex }

/-! ## Game: the turn -/

def Game.isGameOver (g : Game) : Bool := decide (g.players.length = 1)

def Game.nextPlayer (g : Game) : Game :=
  { g with currentPlayerIndex := jsMod (g.currentPlayerIndex.map (· + 1)) g.players.length }

/-- `getHandString()` reads `card.suit` of every hand entry: `false` when that throws. -/
def Player.handPrintable (p : Player) : Bool := p.hand.all Option.isSome

/-- `checkPlayerWin(currentPlayer)`: the new state and the returned flag.
`splice(this.currentPlayerIndex, 1)` starts at 0 when the index is `NaN` and removes
nothing when it is beyond the end. -/
def Game.checkPlayerWin (g : Game) (cur : Nat) : Game × Bool :=
  if (g.obj cur).hand.length = 0 then
    let g1 : Game := { g with players := g.players.eraseIdx (g.currentPlayerIndex.getD 0) }
    if g1.isGameOver then (g1, true)
    else ({ g1 with currentPlayerIndex := jsMod g1.currentPlayerIndex g1.players.length }, false)
  else (g, false)

/-- The loop of `ensureMinimumHandSize`; each pass takes a card off the deck, so the
deck size bounds the number of passes. -/
def Game.ensureLoop : Nat → Game → Nat → Game
  | 0, g, _ => g
  | fuel + 1, g, cur =>
    if (g.obj cur).hand.length < 3 ∧ g.deck.cards.length > 0 then
      Game.ensureLoop fuel (g.drawCard cur).2 cur
    else g

def Game.ensureMinimumHandSize (g : Game) (cur : Nat) : Game :=
  Game.ensureLoop g.deck.cards.length g cur

/-- `handleDraw(currentPlayer)`: the new state and the returned flag (turn ended);
`none` when a `TypeError` is thrown. `playDrawn` tells whether the answer to
"Do you want to play the drawn card?" is `'yes'`. -/
def Game.handleDraw (g : Game) (cur : Nat) (playDrawn : Bool) : Option (Game × Bool) :=
  if g.deck.cards.length > 0 then
    let r := g.drawCard cur
    let g1 := r.2
    match r.1 with
    | none => none
    | some drawnCard =>
      if (g1.obj cur).handPrintable then
        if g1.isValidPlay drawnCard then some (g1, !playDrawn)
        else some (g1, true)
      else none
  else some (g, false)

def Game.handlePickup (g : Game) (cur : Nat) : Game × Bool :=
  let p := g.obj cur
  ({ g.setObj cur { p with hand := p.hand ++ g.playedCardsDeck.map some } with
      playedCardsDeck := [], lastPlayedCard := none }, true)

/-- `handlePlayCard(currentPlayer, cardIndex)`: the new state and the returned flag;
`none` when a `TypeError` is thrown (the removed hand entry is `undefined`).
`cardIndex = none` is `NaN`. -/
def Game.handlePlayCard (g : Game) (cur : Nat) (cardIndex : Option Int) : Option (Game × Bool) :=
  match cardIndex with
  | none => some (g, false)
  | some i =>
    if 0 ≤ i ∧ i < (g.obj cur).hand.length then
      let r := (g.obj cur).playCard i
      let g1 := g.setObj cur r.2
      match r.1 with
      | none => none
      | some playedCard =>
        if g1.isValidPlay playedCard then
          let g2 : Game :=
            { g1 with lastPlayedCard := some playedCard,
                      playedCardsDeck := g1.playedCardsDeck ++ [playedCard] }
          if playedCard.value = .r10 then
            let g3 : Game := { g2 with playedCardsDeck := [], lastPlayedCard := none }
            if (g3.obj cur).hand.length = 0 then some (g3.checkPlayerWin cur)
            else some (g3, false)
          else some (g2, true)
        else
          let p := g1.obj cur
          some (g1.setObj cur { p with hand := p.hand.insertIdx i.toNat (some playedCard) }, false)
    else some (g, false)

/-- One answer to the action prompt of `playTurn`. -/
inductive Action
  /-- The text `'draw'`; `playDrawn` is whether the follow-up prompt is answered `'yes'`. -/
  | draw (playDrawn : Bool)
  /-- The text `'pickup'`. -/
  | pickup
  /-- The prompt was cancelled (`null`). -/
  | cancel
  /-- A numeric text; `cardIndex` is what `parseInt` makes of it (`none`: `NaN`). -/
  | play (cardIndex : Option Int)
  /-- Any other text. -/
  | invalid
  deriving DecidableEq, Repr

/-- What one pass of the `while` loop of `playTurn` can come to. -/
inductive PassResult
  /-- A `TypeError` was thrown. -/
  | crashed
  /-- `return true` on a cancelled prompt. -/
  | cancelled (g : Game)
  /-- The pass ran to its end, `ensureMinimumHandSize` included. -/
  | completed (g : Game) (turnEnded : Bool)

/-- One pass of the `while` loop of `playTurn` with `currentPlayer = cur`. -/
def Game.loopPass (g : Game) (cur : Nat) (a : Action) : PassResult :=
  if (g.obj cur).handPrintable then
    match a with
    | .draw playDrawn =>
      match g.handleDraw cur playDrawn with
      | none => .crashed
      | some r => .completed (r.1.ensureMinimumHandSize cur) r.2
    | .pickup =>
      let r := g.handlePickup cur
      .completed (r.1.ensureMinimumHandSize cur) r.2
    | .cancel => .cancelled g
    | .play cardIndex =>
      match g.handlePlayCard cur cardIndex with
      | none => .crashed
      | some r => .completed (r.1.ensureMinimumHandSize cur) r.2
    | .invalid => .completed (g.ensureMinimumHandSize cur) false
  else .crashed

/-- The statements of `playTurn` after the loop: the new state and whether `true` is returned. -/
def Game.endTurn (g : Game) (cur : Nat) : Game × Bool :=
  let r := g.checkPlayerWin cur
  if r.2 then (r.1, true) else (r.1.nextPlayer, false)

/-- How a call of `playTurn` ends. -/
inductive TurnResult
  /-- A `TypeError` was thrown. -/
  | crashed
  /-- The answers ran out: the call waits at the action prompt in state `g`. -/
  | waiting (g : Game)
  /-- The call returned; `gameEnded` is `true` for `return true`. -/
  | returned (g : Game) (gameEnded : Bool) (rest : List Action)

/-- The `while` loop of `playTurn` and what follows it. -/
def Game.turnLoop (cur : Nat) : Game → List Action → TurnResult
  | g, [] => if (g.obj cur).handPrintable then .waiting g else .crashed
  | g, a :: rest =>
    match g.loopPass cur a with
    | .crashed => .crashed
    | .cancelled g1 => .returned g1 true rest
    | .completed g1 false => Game.turnLoop cur g1 rest
    | .completed g1 true => .returned (g1.endTurn cur).1 (g1.endTurn cur).2 rest

/-- `playTurn()` fed with the answers `acts`. With `currentPlayer` undefined the first
`displayTurnInfo` throws. -/
def Game.playTurn (g : Game) (acts : List Action) : TurnResult :=
  match g.currentPlayer with
  | none => .crashed
  | some cur => Game.turnLoop cur g acts

/-! ## The main script -/

/-- Where the main script stands. -/
inductive Cfg
  /-- At the test of the game loop, the last `playTurn` (if any) having returned `undefined`. -/
  | idle (g : Game)
  /-- Inside `playTurn`, at the head of its `while` loop, with `currentPlayer = cur`. -/
  | acting (g : Game) (cur : Nat)
  /-- The game loop has been left. -/
  | over (g : Game)
  /-- A `TypeError` stopped the script. -/
  | crashed

/-- One pass of the `while` loop of `playTurn`, and the rest of `playTurn` if the pass
ends the turn. -/
def Cfg.pass (g : Game) (cur : Nat) (a : Action) : Cfg :=
  match g.loopPass cur a with
  | .crashed => .crashed
  | .cancelled g1 => .over g1
  | .completed g1 false => .acting g1 cur
  | .completed g1 true => if (g1.endTurn cur).2 then .over (g1.endTurn cur).1
                           else .idle (g1.endTurn cur).1

/-- The script advanced by one answer to the action prompt. -/
def Cfg.step (c : Cfg) (a : Action) : Cfg :=
  match c with
  | .idle g =>
    if g.isGameOver then .over g
    else
      match g.currentPlayer with
      | none => .crashed
      | some cur => Cfg.pass g cur a
  | .acting g cur => Cfg.pass g cur a
  | .over g => .over g
  | .crashed => .crashed

def Cfg.run (c : Cfg) (acts : List Action) : Cfg := acts.foldl Cfg.step c

/-- The script up to the game loop: `new Game(playerCount)` and `setStartingPlayer()`. -/
def Cfg.start (playerCount : Nat) (pick : Nat → Nat) : Cfg :=
  match (Game.new playerCount pick).setStartingPlayer with
  | none => .crashed
  | some g => .idle g

/-! ## Vocabulary of the specification -/

/-- The game state held by a configuration of the script, if it has not crashed. -/
def Cfg.game? : Cfg → Option Game
  | .idle g => some g
  | .acting g _ => some g
  | .over g => some g
  | .crashed => none

/-- The game state a call of `playTurn` leaves behind, if it has not crashed. -/
def TurnResult.game? : TurnResult → Option Game
  | .crashed => none
  | .waiting g => some g
  | .returned g _ _ => some g

/-- The outcome of the random draws of `shuffle` in which every draw picks `j = i`, so that
no two cards change places. -/
def pickLast : Nat → Nat := fun i => i

/-- Answers that empty the deck of a new three-player game dealt from the unshuffled deck
and leave player 0 with one card, a 9: player 1 (who starts) draws the 31 deck cards,
keeping the turn each time, then picks up the empty pile; after that player 2 and player 1
only pick up, while player 0 plays the king and the jack. -/
def answersLastNine : List Action :=
  List.replicate 31 (.draw true) ++
    [.pickup, .pickup, .play (some 0), .pickup, .pickup, .play (some 0), .pickup, .pickup]

/-- Answers that empty the deck of a new three-player game dealt from the unshuffled deck
and leave player 2 with one card, a 10: player 1 (who starts) draws the 31 deck cards,
keeping the turn each time, then picks up the empty pile; after that player 0 and player 1
only pick up, while player 2 plays the ace and the queen. -/
def answersLastTen : List Action :=
  List.replicate 31 (.draw true) ++
    [.pickup, .play (some 0), .pickup, .pickup, .play (some 0), .pickup, .pickup]

/-- Answers of a new two-player game dealt from the unshuffled deck after which player 0,
at index 0, holds one card, a 10, and the deck is empty: player 1 (who starts) draws two
cards and passes, player 0 draws the 10 of clubs and picks up the empty pile, player 1
draws the other 34 cards and picks up; then player 0 plays king, jack and 9 while player 1
picks up each of them. -/
def answersTwoLastTen : List Action :=
  [.draw true, .draw false, .draw true, .pickup] ++ List.replicate 34 (.draw true) ++
    [.pickup, .play (some 0), .pickup, .play (some 0), .pickup, .play (some 0), .pickup]

/-- Answers of a whole two-player game dealt from the unshuffled deck: player 1 (who
starts) picks up the empty pile, player 0 draws the 37 deck cards and picks up, then
player 1 plays its three cards one per turn while player 0 picks each of them up. -/
def answersTwoToTheEnd : List Action :=
  [.pickup] ++ List.replicate 37 (.draw true) ++
    [.pickup, .play (some 2), .pickup, .play (some 0), .pickup, .play (some 0)]

/-- The cards (and `undefined` values) a player object holds. -/
def Player.own (p : Player) : Multiset Slot := (↑p.hand : Multiset Slot) + ↑p.faceDownCards

/-- The contents of the deck, of the discard pile and of one player object, as a multiset. -/
def Game.localBag (g : Game) (cur : Nat) : Multiset Slot :=
  (↑(g.deck.cards.map some) : Multiset Slot) + ↑(g.playedCardsDeck.map some) + (g.heap cur).own

/-- Everything held by the deck, the table cards, the discard pile and the player objects
behind the references `0 .. n-1`, as a multiset. -/
def Game.bag (n : Nat) (g : Game) : Multiset Slot :=
  (↑(g.deck.cards.map some) : Multiset Slot) + ↑(g.playedCardsDeck.map some) + ↑g.tableCards +
    ((List.range n).map (fun r => (g.heap r).own)).sum

/-- What the operations of a turn of the player object behind `cur` may do to a state:
the active list only loses entries, other player objects and the table cards are untouched,
the deck does not grow, and no card appears out of nothing. -/
structure Game.Moves (cur : Nat) (g g1 : Game) : Prop where
  players : g1.players.Sublist g.players
  frame : ∀ x, x ≠ cur → g1.heap x = g.heap x
  deck : g1.deck.cards.length ≤ g.deck.cards.length
  table : g1.tableCards = g.tableCards
  bag : g1.localBag cur ≤ g.localBag cur

/-- The top-up property: every active player holds at least 3 hand entries, or the deck
is empty. -/
def Game.ToppedUp (g : Game) : Prop :=
  ∀ r ∈ g.players, 3 ≤ (g.heap r).hand.length ∨ g.deck.cards = []

/-- `currentPlayerIndex` is a valid index into the active list. -/
def Game.ValidIndex (g : Game) : Prop :=
  ∃ i, g.currentPlayerIndex = some i ∧ i < g.players.length

/-- The cards the claim of card conservation counts: deck, hands and face-down sets of the
active players, discard pile. -/
def Game.cardsInPlay (g : Game) : List Slot :=
  g.deck.cards.map some ++ (g.players.map (fun r => (g.heap r).hand)).flatten ++
    (g.players.map (fun r => (g.heap r).faceDownCards)).flatten ++ g.playedCardsDeck.map some

/-- `currentPlayerIndex` is `NaN` only if the active list is empty. -/
def Game.NanOnlyEmpty (g : Game) : Prop :=
  g.currentPlayerIndex = none → g.players = []

/-- `currentPlayerIndex` is a valid index, unless the active list is empty. -/
def Game.IndexOk (g : Game) : Prop :=
  g.players = [] ∨ g.ValidIndex

/-- What holds of the game state at every point of the script, with `n` the number of
players created and `B` the multiset of cards the new game held. -/
structure Game.Sound (n : Nat) (B : Multiset Slot) (g : Game) : Prop where
  topped : g.ToppedUp
  bag : g.bag n ≤ B
  refs : g.players.Sublist (List.range n)
  nan : g.NanOnlyEmpty

/-- The invariant of the script. -/
def Cfg.Inv (n : Nat) (B : Multiset Slot) : Cfg → Prop
  | .idle g => g.Sound n B ∧ g.IndexOk
  | .acting g cur => g.Sound n B ∧ g.IndexOk ∧ cur < n
  | .over g => g.Sound n B
  | .crashed => True

/-- The state and the current player with which the next pass of the loop of `playTurn`
starts: the configuration is inside a call, or at the game loop with the game not over and
`players[currentPlayerIndex]` defined, so that a call is entered. -/
def Cfg.loopHead? : Cfg → Option (Game × Nat)
  | .idle g => if g.isGameOver then none else g.currentPlayer.map (fun cur => (g, cur))
  | .acting g cur => some (g, cur)
  | .over _ => none
  | .crashed => none

/-- The game state of a configuration in which the game is still going on. -/
def Cfg.running? : Cfg → Option Game
  | .idle g => some g
  | .acting g _ => some g
  | .over _ => none
  | .crashed => none

/-- The three-player game dealt from the unshuffled deck after its first turn, in which
player 1 (who starts) has played the 7 of spades: the pile top is that 7 and player 2, who
holds ace, queen and 10 of clubs, is to move. -/
def stateAfterSeven : Game :=
  (((Cfg.start 3 pickLast).run [.play (some 0)]).game?).getD (Game.blank pickLast)

/-- The player whose turn it is holds at least 3 hand entries, or the deck is empty: the
condition under which `ensureMinimumHandSize` has nothing to do. -/
def Game.CurTopped (g : Game) (cur : Nat) : Prop :=
  3 ≤ (g.heap cur).hand.length ∨ g.deck.cards = []

/-- Inside a call of `playTurn`, at the head of the loop, `CurTopped` holds of
`currentPlayer` (also when it is no longer in the active list). -/
def Cfg.ActingTopped : Cfg → Prop
  | .acting g cur => g.CurTopped cur
  | _ => True

/-- The answers to the action prompt that the engine turns down: a text that is no action,
a number that `parseInt` cannot read or that is no index into the hand, and `'draw'` when
the deck is empty. -/
def Game.Rejected (g : Game) (cur : Nat) : Action → Prop
  | .invalid => True
  | .play none => True
  | .play (some i) => ¬ (0 ≤ i ∧ i < ((g.heap cur).hand.length : Int))
  | .draw _ => g.deck.cards = []
  | .pickup => False
  | .cancel => False

/-- The three-player game dealt from the unshuffled deck after the answers
`answersLastNine`: players `[0, 1, 2]`, player 0 to move with one card, the 9 of spades,
and the deck empty. -/
def stateLastNine : Game :=
  (((Cfg.start 3 pickLast).run answersLastNine).game?).getD (Game.blank pickLast)

/-- The state `stateLastNine` after the pass of the loop of `playTurn` in which player 0
plays that 9 (before the statements that follow the loop). -/
def stateLastNinePlayed : Game :=
  match stateLastNine.loopPass 0 (.play (some 0)) with
  | .completed g1 _ => g1
  | _ => stateLastNine

/-- The order of `setStartingPlayer`: `c` comes before `d` when its value is lower, or the
values are equal and its suit name comes earlier in the alphabet. -/
def cardLess (c d : Card) : Prop :=
  Game.getCardNumericValue c < Game.getCardNumericValue d ∨
    (Game.getCardNumericValue c = Game.getCardNumericValue d ∧ c.suit.ord < d.suit.ord)

/-- A number that orders the cards as `cardLess` does. -/
def cardKey (c : Card) : Nat := 4 * Game.getCardNumericValue c + c.suit.ord

/-- The hand entries in the order in which the two loops of `setStartingPlayer` read them,
each with the loop index of its player; `i` is the index of the first player of the list. -/
def Game.pairsFrom (g : Game) : Nat → List Nat → List (Nat × Slot)
  | _, [] => []
  | i, r :: rs => (g.heap r).hand.map (fun s => (i, s)) ++ Game.pairsFrom g (i + 1) rs

/-- The body of the loops of `setStartingPlayer` run over a list of hand entries with
their loop indices. -/
def Game.scanPairs : List (Nat × Slot) → Lowest → Option Lowest
  | [], acc => some acc
  | (_, none) :: _, _ => none
  | (i, some card) :: rest, acc =>
    let cardValue := Game.getCardNumericValue card
    if valueLess cardValue acc.lowestCardValue ∨
        (acc.lowestCardValue = some cardValue ∧ suitLess card.suit acc.lowestSuit) then
      Game.scanPairs rest ⟨some cardValue, some card.suit, i⟩
    else Game.scanPairs rest acc

/-- The local variables of `setStartingPlayer` describe a lowest card among the entries `T`
read so far (or nothing has been read). -/
def Lowest.Best (acc : Lowest) (T : List (Nat × Slot)) : Prop :=
  (T = [] ∧ acc.lowestCardValue = none) ∨
    ∃ i c, (i, some c) ∈ T ∧ acc = ⟨some (Game.getCardNumericValue c), some c.suit, i⟩ ∧
      ∀ j d, (j, some d) ∈ T → cardKey c ≤ cardKey d

/-- The player whose turn it is is in the active list, or (having been removed from it with
the turn still going on) has an empty hand with the deck empty. -/
def Game.CurIn (g : Game) (cur : Nat) : Prop :=
  cur ∈ g.players ∨ ((g.heap cur).hand = [] ∧ g.deck.cards = [])

/-- Inside a call of `playTurn`, at the head of the loop, `CurIn` holds of `currentPlayer`. -/
def Cfg.ActingIn : Cfg → Prop
  | .acting g cur => g.CurIn cur
  | _ => True

/-! ## Basic facts about the operations -/

section Basic

variable (g : Game) (cur : Nat)

@[simp] theorem Game.setObj_heap_same (p : Player) : (g.setObj cur p).heap cur = p := by
  simp [Game.setObj]

@[simp] theorem Game.setObj_heap_ne (p : Player) {x : Nat} (h : x ≠ cur) :
    (g.setObj cur p).heap x = g.heap x := by
  simp [Game.setObj, h]

@[simp] theorem Game.setObj_players (p : Player) : (g.setObj cur p).players = g.players := rfl

@[simp] theorem Game.setObj_deck (p : Player) : (g.setObj cur p).deck = g.deck := rfl

@[simp] theorem Game.setObj_tableCards (p : Player) :
    (g.setObj cur p).tableCards = g.tableCards := rfl

@[simp] theorem Game.setObj_currentPlayerIndex (p : Player) :
    (g.setObj cur p).currentPlayerIndex = g.currentPlayerIndex := rfl

@[simp] theorem Game.setObj_lastPlayedCard (p : Player) :
    (g.setObj cur p).lastPlayedCard = g.lastPlayedCard := rfl

@[simp] theorem Game.setObj_playedCardsDeck (p : Player) :
    (g.setObj cur p).playedCardsDeck = g.playedCardsDeck := rfl

@[simp] theorem Game.obj_eq (r : Nat) : g.obj r = g.heap r := rfl

/-! ### `drawCard` -/

@[simp] theorem Game.drawCard_players : (g.drawCard cur).2.players = g.players := rfl

@[simp] theorem Game.drawCard_tableCards : (g.drawCard cur).2.tableCards = g.tableCards := rfl

@[simp] theorem Game.drawCard_currentPlayerIndex :
    (g.drawCard cur).2.currentPlayerIndex = g.currentPlayerIndex := rfl

@[simp] theorem Game.drawCard_lastPlayedCard :
    (g.drawCard cur).2.lastPlayedCard = g.lastPlayedCard := rfl

@[simp] theorem Game.drawCard_playedCardsDeck :
    (g.drawCard cur).2.playedCardsDeck = g.playedCardsDeck := rfl

@[simp] theorem Game.drawCard_deck : (g.drawCard cur).2.deck.cards = g.deck.cards.dropLast := rfl

@[simp] theorem Game.drawCard_fst : (g.drawCard cur).1 = g.deck.cards.getLast? := rfl

@[simp] theorem Game.drawCard_heap_same :
    (g.drawCard cur).2.heap cur =
      { g.heap cur with hand := (g.heap cur).hand ++ [g.deck.cards.getLast?] } := by
  simp [Game.drawCard, Player.drawCard, Deck.deal]

@[simp] theorem Game.drawCard_heap_ne {x : Nat} (h : x ≠ cur) :
    (g.drawCard cur).2.heap x = g.heap x := by
  simp [Game.drawCard, h]

/-! ### `checkPlayerWin`, `nextPlayer` -/

@[simp] theorem Game.checkPlayerWin_heap : (g.checkPlayerWin cur).1.heap = g.heap := by
  unfold Game.checkPlayerWin; dsimp only; split_ifs <;> rfl

@[simp] theorem Game.checkPlayerWin_deck : (g.checkPlayerWin cur).1.deck = g.deck := by
  unfold Game.checkPlayerWin; dsimp only; split_ifs <;> rfl

@[simp] theorem Game.checkPlayerWin_tableCards :
    (g.checkPlayerWin cur).1.tableCards = g.tableCards := by
  unfold Game.checkPlayerWin; dsimp only; split_ifs <;> rfl

@[simp] theorem Game.checkPlayerWin_lastPlayedCard :
    (g.checkPlayerWin cur).1.lastPlayedCard = g.lastPlayedCard := by
  unfold Game.checkPlayerWin; dsimp only; split_ifs <;> rfl

@[simp] theorem Game.checkPlayerWin_playedCardsDeck :
    (g.checkPlayerWin cur).1.playedCardsDeck = g.playedCardsDeck := by
  unfold Game.checkPlayerWin; dsimp only; split_ifs <;> rfl

theorem Game.checkPlayerWin_players_sublist :
    (g.checkPlayerWin cur).1.players.Sublist g.players := by
  unfold Game.checkPlayerWin
  dsimp only
  split_ifs
  · exact List.eraseIdx_sublist _ _
  · exact List.eraseIdx_sublist _ _
  · exact List.Sublist.refl _

@[simp] theorem Game.nextPlayer_heap : g.nextPlayer.heap = g.heap := rfl

@[simp] theorem Game.nextPlayer_players : g.nextPlayer.players = g.players := rfl

@[simp] theorem Game.nextPlayer_deck : g.nextPlayer.deck = g.deck := rfl

@[simp] theorem Game.nextPlayer_tableCards : g.nextPlayer.tableCards = g.tableCards := rfl

@[simp] theorem Game.nextPlayer_lastPlayedCard :
    g.nextPlayer.lastPlayedCard = g.lastPlayedCard := rfl

@[simp] theorem Game.nextPlayer_playedCardsDeck :
    g.nextPlayer.playedCardsDeck = g.playedCardsDeck := rfl

@[simp] theorem Game.endTurn_heap : (g.endTurn cur).1.heap = g.heap := by
  unfold Game.endTurn; dsimp only; split_ifs <;> simp

@[simp] theorem Game.endTurn_deck : (g.endTurn cur).1.deck = g.deck := by
  unfold Game.endTurn; dsimp only; split_ifs <;> simp

@[simp] theorem Game.endTurn_tableCards : (g.endTurn cur).1.tableCards = g.tableCards := by
  unfold Game.endTurn; dsimp only; split_ifs <;> simp

@[simp] theorem Game.endTurn_lastPlayedCard :
    (g.endTurn cur).1.lastPlayedCard = g.lastPlayedCard := by
  unfold Game.endTurn; dsimp only; split_ifs <;> simp

@[simp] theorem Game.endTurn_playedCardsDeck :
    (g.endTurn cur).1.playedCardsDeck = g.playedCardsDeck := by
  unfold Game.endTurn; dsimp only; split_ifs <;> simp

theorem Game.endTurn_players_sublist : (g.endTurn cur).1.players.Sublist g.players := by
  unfold Game.endTurn
  dsimp only
  split_ifs
  · exact g.checkPlayerWin_players_sublist cur
  · exact g.checkPlayerWin_players_sublist cur

/-! ### `ensureMinimumHandSize` -/

theorem Game.ensureLoop_players (fuel : Nat) : (Game.ensureLoop fuel g cur).players = g.players := by
  induction fuel generalizing g with
  | zero => rfl
  | succ k ih =>
    unfold Game.ensureLoop
    split_ifs
    · rw [ih]; rfl
    · rfl

theorem Game.ensureLoop_currentPlayerIndex (fuel : Nat) :
    (Game.ensureLoop fuel g cur).currentPlayerIndex = g.currentPlayerIndex := by
  induction fuel generalizing g with
  | zero => rfl
  | succ k ih =>
    unfold Game.ensureLoop
    split_ifs
    · rw [ih]; rfl
    · rfl

theorem Game.ensureLoop_tableCards (fuel : Nat) :
    (Game.ensureLoop fuel g cur).tableCards = g.tableCards := by
  induction fuel generalizing g with
  | zero => rfl
  | succ k ih =>
    unfold Game.ensureLoop
    split_ifs
    · rw [ih]; rfl
    · rfl

theorem Game.ensureLoop_lastPlayedCard (fuel : Nat) :
    (Game.ensureLoop fuel g cur).lastPlayedCard = g.lastPlayedCard := by
  induction fuel generalizing g with
  | zero => rfl
  | succ k ih =>
    unfold Game.ensureLoop
    split_ifs
    · rw [ih]; rfl
    · rfl

theorem Game.ensureLoop_playedCardsDeck (fuel : Nat) :
    (Game.ensureLoop fuel g cur).playedCardsDeck = g.playedCardsDeck := by
  induction fuel generalizing g with
  | zero => rfl
  | succ k ih =>
    unfold Game.ensureLoop
    split_ifs
    · rw [ih]; rfl
    · rfl

theorem Game.ensureLoop_heap_ne (fuel : Nat) {x : Nat} (h : x ≠ cur) :
    (Game.ensureLoop fuel g cur).heap x = g.heap x := by
  induction fuel generalizing g with
  | zero => rfl
  | succ k ih =>
    unfold Game.ensureLoop
    split_ifs
    · rw [ih]; simp [h]
    · rfl

@[simp] theorem Game.ensureMinimumHandSize_players :
    (g.ensureMinimumHandSize cur).players = g.players := g.ensureLoop_players cur _

@[simp] theorem Game.ensureMinimumHandSize_currentPlayerIndex :
    (g.ensureMinimumHandSize cur).currentPlayerIndex = g.currentPlayerIndex :=
  g.ensureLoop_currentPlayerIndex cur _

@[simp] theorem Game.ensureMinimumHandSize_tableCards :
    (g.ensureMinimumHandSize cur).tableCards = g.tableCards := g.ensureLoop_tableCards cur _

@[simp] theorem Game.ensureMinimumHandSize_lastPlayedCard :
    (g.ensureMinimumHandSize cur).lastPlayedCard = g.lastPlayedCard :=
  g.ensureLoop_lastPlayedCard cur _

@[simp] theorem Game.ensureMinimumHandSize_playedCardsDeck :
    (g.ensureMinimumHandSize cur).playedCardsDeck = g.playedCardsDeck :=
  g.ensureLoop_playedCardsDeck cur _

@[simp] theorem Game.ensureMinimumHandSize_heap_ne {x : Nat} (h : x ≠ cur) :
    (g.ensureMinimumHandSize cur).heap x = g.heap x := g.ensureLoop_heap_ne cur _ h

end Basic

/-! ## Movement of cards -/

theorem insertIdx_eraseIdx_self {α : Type} :
    ∀ (l : List α) (i : Nat) (a : α), l[i]? = some a → (l.eraseIdx i).insertIdx i a = l
  | [], _, _, h => by simp at h
  | x :: xs, 0, a, h => by
    simp at h
    simp [h]
  | x :: xs, i + 1, a, h => by
    simp at h
    simp [List.insertIdx_succ_cons, insertIdx_eraseIdx_self xs i a h]

theorem spliceStart_natCast (len i : Nat) (h : i < len) : spliceStart len (i : Int) = i := by
  unfold spliceStart
  have : ¬ ((i : Int) < 0) := by omega
  simp [this]
  omega

theorem Player.playCard_natCast (p : Player) (i : Nat) (h : i < p.hand.length) :
    p.playCard (i : Int) = ((p.hand[i]?).join, { p with hand := p.hand.eraseIdx i }) := by
  simp [Player.playCard, spliceStart_natCast _ _ h]

section Moves

variable {g g1 g2 : Game} {cur : Nat}

theorem Game.Moves.refl (g : Game) (cur : Nat) : g.Moves cur g :=
  ⟨List.Sublist.refl _, fun _ _ => rfl, le_refl _, rfl, le_refl _⟩

theorem Game.Moves.trans (h1 : g.Moves cur g1) (h2 : g1.Moves cur g2) : g.Moves cur g2 :=
  ⟨h2.players.trans h1.players, fun x hx => (h2.frame x hx).trans (h1.frame x hx),
    le_trans h2.deck h1.deck, h2.table.trans h1.table, le_trans h2.bag h1.bag⟩

theorem Game.drawCard_moves (g : Game) (cur : Nat) (h : g.deck.cards.length > 0) :
    g.Moves cur (g.drawCard cur).2 := by
  refine ⟨by simp, fun x hx => by simp [hx], by simp, by simp, ?_⟩
  have hne : g.deck.cards ≠ [] := by
    intro h0; rw [h0] at h; simp at h
  obtain ⟨c, hc⟩ : ∃ c, g.deck.cards.getLast? = some c := by
    cases hl : g.deck.cards.getLast? with
    | none => exact absurd (List.getLast?_eq_none_iff.mp hl) hne
    | some c => exact ⟨c, rfl⟩
  have hd : g.deck.cards.dropLast ++ [c] = g.deck.cards :=
    List.dropLast_append_getLast? c (by simp [hc])
  apply le_of_eq
  simp only [Game.localBag, Player.own, Game.drawCard_deck, Game.drawCard_playedCardsDeck,
    Game.drawCard_heap_same, hc]
  conv_rhs => rw [← hd]
  simp only [List.map_append, List.map_cons, List.map_nil, ← Multiset.coe_add]
  abel

theorem Game.checkPlayerWin_moves (g : Game) (cur : Nat) :
    g.Moves cur (g.checkPlayerWin cur).1 :=
  ⟨g.checkPlayerWin_players_sublist cur, fun x _ => by simp, by simp, by simp,
    by simp [Game.localBag]⟩

theorem Game.endTurn_moves (g : Game) (cur : Nat) : g.Moves cur (g.endTurn cur).1 :=
  ⟨g.endTurn_players_sublist cur, fun x _ => by simp, by simp, by simp,
    by simp [Game.localBag]⟩

theorem Game.ensureLoop_moves (fuel : Nat) (g : Game) (cur : Nat) :
    g.Moves cur (Game.ensureLoop fuel g cur) := by
  induction fuel generalizing g with
  | zero => exact Game.Moves.refl g cur
  | succ k ih =>
    unfold Game.ensureLoop
    split_ifs with h
    · exact (g.drawCard_moves cur h.2).trans (ih _)
    · exact Game.Moves.refl g cur

theorem Game.ensureMinimumHandSize_moves (g : Game) (cur : Nat) :
    g.Moves cur (g.ensureMinimumHandSize cur) := Game.ensureLoop_moves _ g cur

theorem Game.handleDraw_moves (g : Game) (cur : Nat) (playDrawn : Bool) (r : Game × Bool)
    (h : g.handleDraw cur playDrawn = some r) : g.Moves cur r.1 := by
  unfold Game.handleDraw at h
  split_ifs at h with hd
  · have hm := g.drawCard_moves cur hd
    dsimp only at h
    split at h
    · exact absurd h (by simp)
    · split_ifs at h
      all_goals (simp only [Option.some.injEq] at h; subst h; exact hm)
  · simp only [Option.some.injEq] at h
    subst h
    exact Game.Moves.refl g cur

theorem Game.handlePickup_moves (g : Game) (cur : Nat) : g.Moves cur (g.handlePickup cur).1 := by
  refine ⟨by simp [Game.handlePickup], fun x hx => by simp [Game.handlePickup, hx],
    by simp [Game.handlePickup], by simp [Game.handlePickup], ?_⟩
  apply le_of_eq
  simp only [Game.handlePickup, Game.localBag, Player.own, Game.setObj_heap_same, Game.obj_eq,
    Game.setObj_deck, List.map_nil, ← Multiset.coe_add, Multiset.coe_nil]
  abel

theorem coe_eraseIdx_add {α : Type} (l : List α) (i : Nat) (a : α) (h : l[i]? = some a) :
    (↑(l.eraseIdx i) : Multiset α) + {a} = ↑l := by
  have hlen : i ≤ (l.eraseIdx i).length := by
    have hi : i < l.length := by
      rcases Nat.lt_or_ge i l.length with h1 | h1
      · exact h1
      · rw [List.getElem?_eq_none h1] at h; simp at h
    rw [List.length_eraseIdx, if_pos hi]
    omega
  have hp : List.Perm ((l.eraseIdx i).insertIdx i a) (a :: l.eraseIdx i) :=
    List.perm_insertIdx a _ hlen
  rw [insertIdx_eraseIdx_self l i a h] at hp
  rw [Multiset.coe_eq_coe.mpr hp, ← Multiset.cons_coe, ← Multiset.singleton_add, add_comm]

theorem Game.isValidPlay_congr {g g1 : Game} (h : g1.lastPlayedCard = g.lastPlayedCard)
    (c : Card) : g1.isValidPlay c = g.isValidPlay c := by
  unfold Game.isValidPlay
  rw [h]

theorem Game.setObj_self (g : Game) (cur : Nat) (p : Player) (h : p = g.heap cur) :
    g.setObj cur p = g := by
  subst h
  cases g with
  | mk heap players deck tableCards currentPlayerIndex lastPlayedCard playedCardsDeck =>
    simp only [Game.setObj, Game.mk.injEq, and_true]
    funext x
    split_ifs with hx
    · rw [hx]
    · rfl

theorem Game.setObj_setObj (g : Game) (cur : Nat) (p q : Player) :
    (g.setObj cur p).setObj cur q = g.setObj cur q := by
  simp only [Game.setObj, Game.mk.injEq, and_true]
  funext x
  split_ifs <;> rfl

/-- `handlePlayCard` at an index in range whose hand entry is a card. -/
theorem Game.handlePlayCard_inRange (g : Game) (cur i : Nat) (c : Card)
    (hget : (g.heap cur).hand[i]? = some (some c)) :
    g.handlePlayCard cur (some (i : Int)) =
      if g.isValidPlay c = true then
        if c.value = .r10 then
          if ((g.heap cur).hand.eraseIdx i).length = 0 then
            some (Game.checkPlayerWin
              { g.setObj cur { g.heap cur with hand := (g.heap cur).hand.eraseIdx i } with
                playedCardsDeck := [], lastPlayedCard := none } cur)
          else
            some ({ g.setObj cur { g.heap cur with hand := (g.heap cur).hand.eraseIdx i } with
                    playedCardsDeck := [], lastPlayedCard := none }, false)
        else
          some ({ g.setObj cur { g.heap cur with hand := (g.heap cur).hand.eraseIdx i } with
                  lastPlayedCard := some c, playedCardsDeck := g.playedCardsDeck ++ [c] }, true)
      else some (g, false) := by
  have hk : i < (g.heap cur).hand.length := by
    rcases Nat.lt_or_ge i (g.heap cur).hand.length with h1 | h1
    · exact h1
    · rw [List.getElem?_eq_none h1] at hget; simp at hget
  have hr : (0 : Int) ≤ (i : Int) ∧ (i : Int) < ((g.heap cur).hand.length : Int) :=
    ⟨by omega, by exact_mod_cast hk⟩
  have hv : ∀ p : Player, (g.setObj cur p).isValidPlay c = g.isValidPlay c :=
    fun p => Game.isValidPlay_congr rfl c
  unfold Game.handlePlayCard
  simp only [Game.obj_eq, hr, and_self, if_true, Player.playCard_natCast _ _ hk, hget,
    Option.join, Option.some_bind, id, hv, Game.setObj_heap_same, Game.setObj_playedCardsDeck,
    Int.toNat_ofNat]
  by_cases hval : g.isValidPlay c = true
  · simp only [hval, if_true]
  · simp only [hval, if_false, Bool.false_eq_true]
    rw [Game.setObj_setObj, insertIdx_eraseIdx_self _ _ _ hget]
    rw [Game.setObj_self g cur _ rfl]

/-- `handlePlayCard` at an index in range whose hand entry is `undefined` throws. -/
theorem Game.handlePlayCard_undefined (g : Game) (cur i : Nat)
    (hget : (g.heap cur).hand[i]? = some none) :
    g.handlePlayCard cur (some (i : Int)) = none := by
  have hk : i < (g.heap cur).hand.length := by
    rcases Nat.lt_or_ge i (g.heap cur).hand.length with h1 | h1
    · exact h1
    · rw [List.getElem?_eq_none h1] at hget; simp at hget
  have hr : (0 : Int) ≤ (i : Int) ∧ (i : Int) < ((g.heap cur).hand.length : Int) :=
    ⟨by omega, by exact_mod_cast hk⟩
  unfold Game.handlePlayCard
  simp only [Game.obj_eq, hr, and_self, if_true, Player.playCard_natCast _ _ hk, hget,
    Option.join, Option.some_bind, id]

/-- `handlePlayCard` at `NaN` or at an index out of range changes nothing. -/
theorem Game.handlePlayCard_outOfRange (g : Game) (cur : Nat) (i : Int)
    (h : ¬ (0 ≤ i ∧ i < ((g.heap cur).hand.length : Int))) :
    g.handlePlayCard cur (some i) = some (g, false) := by
  unfold Game.handlePlayCard
  simp only [Game.obj_eq, h, if_false]

theorem Game.handlePlayCard_moves (g : Game) (cur : Nat) (cardIndex : Option Int)
    (r : Game × Bool) (h : g.handlePlayCard cur cardIndex = some r) : g.Moves cur r.1 := by
  cases cardIndex with
  | none =>
    simp only [Game.handlePlayCard, Option.some.injEq] at h
    subst h
    exact Game.Moves.refl g cur
  | some i =>
    by_cases hr : 0 ≤ i ∧ i < ((g.heap cur).hand.length : Int)
    · obtain ⟨h0, hlt⟩ := hr
      lift i to ℕ using h0
      have hk : i < (g.heap cur).hand.length := by exact_mod_cast hlt
      have hget : (g.heap cur).hand[i]? = some (g.heap cur).hand[i] :=
        List.getElem?_eq_getElem hk
      cases hs : (g.heap cur).hand[i] with
      | none =>
        rw [hs] at hget
        rw [g.handlePlayCard_undefined cur i hget] at h
        exact absurd h (by simp)
      | some c =>
        rw [hs] at hget
        rw [g.handlePlayCard_inRange cur i c hget] at h
        have hburn : g.Moves cur
            { g.setObj cur { g.heap cur with hand := (g.heap cur).hand.eraseIdx i } with
              playedCardsDeck := [], lastPlayedCard := none } := by
          refine ⟨by simp, fun x hx => by simp [hx], by simp, by simp, ?_⟩
          simp only [Game.localBag, Player.own, Game.setObj_heap_same, Game.setObj_deck,
            List.map_nil, Multiset.coe_nil]
          exact add_le_add (add_le_add le_rfl (Multiset.zero_le _))
            (add_le_add (Multiset.coe_le.mpr (List.eraseIdx_sublist _ _).subperm) le_rfl)
        split_ifs at h with hv h10 hz
        · simp only [Option.some.injEq] at h
          subst h
          exact hburn.trans (Game.checkPlayerWin_moves _ cur)
        · simp only [Option.some.injEq] at h
          subst h
          exact hburn
        · simp only [Option.some.injEq] at h
          subst h
          refine ⟨by simp, fun x hx => by simp [hx], by simp, by simp, ?_⟩
          apply le_of_eq
          simp only [Game.localBag, Player.own, Game.setObj_heap_same, Game.setObj_deck,
            List.map_append, List.map_cons, List.map_nil, ← Multiset.coe_add]
          rw [← coe_eraseIdx_add _ _ _ hget, ← Multiset.coe_singleton]
          abel
        · simp only [Option.some.injEq] at h
          subst h
          exact Game.Moves.refl g cur
    · rw [g.handlePlayCard_outOfRange cur i hr] at h
      simp only [Option.some.injEq] at h
      subst h
      exact Game.Moves.refl g cur

theorem Game.loopPass_moves (g : Game) (cur : Nat) (a : Action) (g1 : Game) (b : Bool)
    (h : g.loopPass cur a = .completed g1 b) : g.Moves cur g1 := by
  unfold Game.loopPass at h
  split_ifs at h
  cases a with
  | draw playDrawn =>
    dsimp only at h
    split at h
    · exact absurd h (by simp)
    · rename_i r hr
      simp only [PassResult.completed.injEq] at h
      rw [← h.1]
      exact (g.handleDraw_moves cur playDrawn r hr).trans (Game.ensureMinimumHandSize_moves _ _)
  | pickup =>
    simp only [PassResult.completed.injEq] at h
    rw [← h.1]
    exact (g.handlePickup_moves cur).trans (Game.ensureMinimumHandSize_moves _ _)
  | cancel => exact absurd h (by simp)
  | play cardIndex =>
    dsimp only at h
    split at h
    · exact absurd h (by simp)
    · rename_i r hr
      simp only [PassResult.completed.injEq] at h
      rw [← h.1]
      exact (g.handlePlayCard_moves cur cardIndex r hr).trans
        (Game.ensureMinimumHandSize_moves _ _)
  | invalid =>
    simp only [PassResult.completed.injEq] at h
    rw [← h.1]
    exact Game.ensureMinimumHandSize_moves _ _

theorem Game.loopPass_cancelled (g : Game) (cur : Nat) (a : Action) (g1 : Game)
    (h : g.loopPass cur a = .cancelled g1) : g1 = g := by
  unfold Game.loopPass at h
  split_ifs at h
  cases a with
  | draw playDrawn =>
    dsimp only at h
    split at h <;> simp at h
  | pickup => simp at h
  | cancel =>
    simp only [PassResult.cancelled.injEq] at h
    exact h.symm
  | play cardIndex =>
    dsimp only at h
    split at h <;> simp at h
  | invalid => simp at h

end Moves

/-! ## Theorems -/

/-- C1: `isValidPlay` accepts a card exactly when the pile top is empty, or the card or the
pile top has rank 2, or the card has rank 10, or (none of these holding) the card's value is
at most the pile top's value when the pile top is a 7 and at least the pile top's value
otherwise; the values are 2→15, 3..10→3..10, J→11, Q→12, K→13, A→14. -/
theorem isValidPlay_precedence (g : Game) (card : Card) :
    (g.isValidPlay card = true ↔
      (g.lastPlayedCard = none ∨
        ∃ top, g.lastPlayedCard = some top ∧
          ((card.value = .r2 ∨ top.value = .r2) ∨
            (¬ (card.value = .r2 ∨ top.value = .r2) ∧ card.value = .r10) ∨
            (¬ (card.value = .r2 ∨ top.value = .r2) ∧ card.value ≠ .r10 ∧ top.value = .r7 ∧
              Game.getCardNumericValue card ≤ Game.getCardNumericValue top) ∨
            (¬ (card.value = .r2 ∨ top.value = .r2) ∧ card.value ≠ .r10 ∧ top.value ≠ .r7 ∧
              Game.getCardNumericValue card ≥ Game.getCardNumericValue top)))) ∧
    (∀ s : Suit,
      [Game.getCardNumericValue ⟨s, .r2⟩, Game.getCardNumericValue ⟨s, .r3⟩,
        Game.getCardNumericValue ⟨s, .r4⟩, Game.getCardNumericValue ⟨s, .r5⟩,
        Game.getCardNumericValue ⟨s, .r6⟩, Game.getCardNumericValue ⟨s, .r7⟩,
        Game.getCardNumericValue ⟨s, .r8⟩, Game.getCardNumericValue ⟨s, .r9⟩,
        Game.getCardNumericValue ⟨s, .r10⟩, Game.getCardNumericValue ⟨s, .J⟩,
        Game.getCardNumericValue ⟨s, .Q⟩, Game.getCardNumericValue ⟨s, .K⟩,
        Game.getCardNumericValue ⟨s, .A⟩] = [15, 3, 4, 5, 6, 7, 8, 9, 10, 11, 12, 13, 14]) := by
  refine ⟨?_, fun s => rfl⟩
  unfold Game.isValidPlay
  cases hl : g.lastPlayedCard with
  | none => simp
  | some top =>
    simp only [false_or, Option.some.injEq, exists_eq_left', reduceCtorEq]
    by_cases h2 : card.value = .r2 ∨ top.value = .r2
    · simp [h2]
    · have hc : card.value ≠ .r2 := fun h => h2 (Or.inl h)
      have ht : top.value ≠ .r2 := fun h => h2 (Or.inr h)
      by_cases h10 : card.value = .r10
      · simp [hc, ht, h10]
      · by_cases h7 : top.value = .r7
        · simp [hc, ht, h10, h7]
        · simp [hc, ht, h10, h7]

/-! ### Playing a 10 -/

/-- C3: at an index in range whose hand entry is a card of rank 10, `handlePlayCard` accepts
the play (it returns normally and the card has left the hand) and in the state it leaves
the pile top is empty and the accumulated pile is the empty list, whatever they were. -/
theorem handlePlayCard_ten_resets_pile (g : Game) (cur i : Nat) (card : Card)
    (hget : (g.heap cur).hand[i]? = some (some card)) (h10 : card.value = .r10) :
    ∃ g1 b, g.handlePlayCard cur (some (i : Int)) = some (g1, b) ∧
      g1.lastPlayedCard = none ∧ g1.playedCardsDeck = [] ∧
      (g1.heap cur).hand = (g.heap cur).hand.eraseIdx i := by
  have hval : g.isValidPlay card = true := by
    unfold Game.isValidPlay
    cases g.lastPlayedCard with
    | none => rfl
    | some last => simp [h10]
  rw [g.handlePlayCard_inRange cur i card hget]
  simp only [hval, h10, if_true]
  split_ifs
  · generalize hg3 : ({ g.setObj cur { g.heap cur with hand := (g.heap cur).hand.eraseIdx i } with
        playedCardsDeck := [], lastPlayedCard := none } : Game) = g3
    refine ⟨(g3.checkPlayerWin cur).1, (g3.checkPlayerWin cur).2, rfl, ?_, ?_, ?_⟩
    · rw [Game.checkPlayerWin_lastPlayedCard, ← hg3]
    · rw [Game.checkPlayerWin_playedCardsDeck, ← hg3]
    · rw [Game.checkPlayerWin_heap, ← hg3]
      simp
  · exact ⟨_, _, rfl, rfl, rfl, by simp⟩

set_option maxRecDepth 100000 in
/-- C3 at a concrete input: in the new three-player game dealt from the unshuffled deck,
player 2 holds the 10 of clubs at index 2. -/
theorem handlePlayCard_ten_resets_pile_witness :
    ((Game.new 3 pickLast).heap 2).hand[2]? = some (some ⟨.Clubs, .r10⟩) ∧
    ∃ g1 b, (Game.new 3 pickLast).handlePlayCard 2 (some ((2 : Nat) : Int)) = some (g1, b) ∧
      g1.lastPlayedCard = none ∧ g1.playedCardsDeck = [] ∧
      (g1.heap 2).hand = ((Game.new 3 pickLast).heap 2).hand.eraseIdx 2 :=
  ⟨by decide, handlePlayCard_ten_resets_pile (Game.new 3 pickLast) 2 2 ⟨.Clubs, .r10⟩
    (by decide) rfl⟩

/-! ### The active list only shrinks -/

theorem Game.turnLoop_moves (cur : Nat) :
    ∀ (acts : List Action) (g g1 : Game), (g.turnLoop cur acts).game? = some g1 →
      g.Moves cur g1 := by
  intro acts
  induction acts with
  | nil =>
    intro g g1 h
    unfold Game.turnLoop at h
    split_ifs at h
    · simp only [TurnResult.game?, Option.some.injEq] at h
      subst h
      exact Game.Moves.refl g cur
    · simp [TurnResult.game?] at h
  | cons a rest ih =>
    intro g g1 h
    unfold Game.turnLoop at h
    split at h
    · simp [TurnResult.game?] at h
    · rename_i g2 hp
      simp only [TurnResult.game?, Option.some.injEq] at h
      rw [← h, g.loopPass_cancelled cur a g2 hp]
      exact Game.Moves.refl g cur
    · rename_i g2 hp
      exact (g.loopPass_moves cur a g2 false hp).trans (ih g2 g1 h)
    · rename_i g2 hp
      simp only [TurnResult.game?, Option.some.injEq] at h
      rw [← h]
      exact (g.loopPass_moves cur a g2 true hp).trans (g2.endTurn_moves cur)

theorem Cfg.pass_players (g : Game) (cur : Nat) (a : Action) (g1 : Game)
    (h : (Cfg.pass g cur a).game? = some g1) : g1.players.Sublist g.players := by
  unfold Cfg.pass at h
  split at h
  · simp [Cfg.game?] at h
  · rename_i g2 hp
    simp only [Cfg.game?, Option.some.injEq] at h
    rw [← h, g.loopPass_cancelled cur a g2 hp]
  · rename_i g2 hp
    simp only [Cfg.game?, Option.some.injEq] at h
    rw [← h]
    exact (g.loopPass_moves cur a g2 false hp).players
  · rename_i g2 hp
    have hm := ((g.loopPass_moves cur a g2 true hp).trans (g2.endTurn_moves cur)).players
    split_ifs at h
    · simp only [Cfg.game?, Option.some.injEq] at h
      rw [← h]
      exact hm
    · simp only [Cfg.game?, Option.some.injEq] at h
      rw [← h]
      exact hm

theorem Cfg.step_players (c : Cfg) (a : Action) (g1 : Game)
    (h : (c.step a).game? = some g1) :
    ∃ g, c.game? = some g ∧ g1.players.Sublist g.players := by
  cases c with
  | idle g =>
    refine ⟨g, rfl, ?_⟩
    unfold Cfg.step at h
    dsimp only at h
    split_ifs at h
    · simp only [Cfg.game?, Option.some.injEq] at h
      rw [← h]
    · split at h
      · simp [Cfg.game?] at h
      · exact Cfg.pass_players g _ a g1 h
  | acting g cur => exact ⟨g, rfl, Cfg.pass_players g cur a g1 h⟩
  | over g =>
    refine ⟨g, rfl, ?_⟩
    simp only [Cfg.step, Cfg.game?, Option.some.injEq] at h
    rw [← h]
  | crashed => simp [Cfg.step, Cfg.game?] at h

theorem Cfg.run_players :
    ∀ (acts : List Action) (c : Cfg) (g1 : Game), (c.run acts).game? = some g1 →
      ∃ g, c.game? = some g ∧ g1.players.Sublist g.players := by
  intro acts
  induction acts with
  | nil => intro c g1 h; exact ⟨g1, h, List.Sublist.refl _⟩
  | cons a rest ih =>
    intro c g1 h
    obtain ⟨g2, hg2, hs2⟩ := ih (c.step a) g1 h
    obtain ⟨g, hg, hs⟩ := Cfg.step_players c a g2 hg2
    exact ⟨g, hg, hs2.trans hs⟩

/-- C10: whatever the state and the answers, the active list a call of `playTurn` leaves
behind (when it returns, and also while it waits for an answer) is a sub-list, in the same
order, of the list before the call: the number of active players does not grow and a
reference that is not in the list before is not in it afterwards. The same holds between
any two points of a run of the script, however many turns lie between them. -/
theorem playTurn_players_sublist (g : Game) (acts : List Action) :
    (match g.playTurn acts with
    | .crashed => True
    | .waiting g1 =>
      g1.players.Sublist g.players ∧ g1.players.length ≤ g.players.length ∧
        ∀ r, r ∉ g.players → r ∉ g1.players
    | .returned g1 _ _ =>
      g1.players.Sublist g.players ∧ g1.players.length ≤ g.players.length ∧
        ∀ r, r ∉ g.players → r ∉ g1.players) ∧
    (∀ (c : Cfg) (g1 g2 : Game), c.game? = some g1 → (c.run acts).game? = some g2 →
      g2.players.Sublist g1.players ∧ g2.players.length ≤ g1.players.length ∧
        ∀ r, r ∉ g1.players → r ∉ g2.players) := by
  have key : ∀ g1, (g.playTurn acts).game? = some g1 →
      g1.players.Sublist g.players ∧ g1.players.length ≤ g.players.length ∧
        ∀ r, r ∉ g.players → r ∉ g1.players := by
    intro g1 h
    unfold Game.playTurn at h
    split at h
    · simp [TurnResult.game?] at h
    · rename_i cur _
      have hm := (Game.turnLoop_moves cur acts g g1 h).players
      exact ⟨hm, hm.length_le, fun r hr hr1 => hr (hm.subset hr1)⟩
  refine ⟨?_, ?_⟩
  · cases hres : g.playTurn acts with
    | crashed => trivial
    | waiting g1 => exact key g1 (by rw [hres]; rfl)
    | returned g1 b rest => exact key g1 (by rw [hres]; rfl)
  · intro c g1 g2 h1 h2
    obtain ⟨g3, h3, hs⟩ := Cfg.run_players acts c g2 h2
    rw [h1] at h3
    simp only [Option.some.injEq] at h3
    subst h3
    exact ⟨hs, hs.length_le, fun r hr hr1 => hr (hs.subset hr1)⟩

/-! ### Top-up -/

theorem Game.ensureLoop_spec (fuel : Nat) (g : Game) (cur : Nat)
    (hf : g.deck.cards.length ≤ fuel) :
    ((Game.ensureLoop fuel g cur).heap cur).hand.length =
        (g.heap cur).hand.length + min (3 - (g.heap cur).hand.length) g.deck.cards.length ∧
      (Game.ensureLoop fuel g cur).deck.cards.length =
        g.deck.cards.length - min (3 - (g.heap cur).hand.length) g.deck.cards.length := by
  induction fuel generalizing g with
  | zero =>
    have h0 : g.deck.cards.length = 0 := by omega
    simp [Game.ensureLoop, h0]
  | succ k ih =>
    unfold Game.ensureLoop
    split_ifs with h
    · have hk : (g.drawCard cur).2.deck.cards.length ≤ k := by
        simp only [Game.drawCard_deck, List.length_dropLast]
        omega
      have := ih (g.drawCard cur).2 hk
      simp only [Game.drawCard_heap_same, Game.drawCard_deck, List.length_dropLast,
        List.length_append, List.length_singleton] at this
      simp only [Game.obj_eq] at h
      omega
    · simp only [Game.obj_eq] at h
      omega

theorem Game.ensureMinimumHandSize_spec (g : Game) (cur : Nat) :
    ((g.ensureMinimumHandSize cur).heap cur).hand.length =
        (g.heap cur).hand.length + min (3 - (g.heap cur).hand.length) g.deck.cards.length ∧
      (g.ensureMinimumHandSize cur).deck.cards.length =
        g.deck.cards.length - min (3 - (g.heap cur).hand.length) g.deck.cards.length :=
  Game.ensureLoop_spec _ g cur (le_refl _)

theorem Game.ensureMinimumHandSize_topped (g : Game) (cur : Nat) :
    3 ≤ ((g.ensureMinimumHandSize cur).heap cur).hand.length ∨
      (g.ensureMinimumHandSize cur).deck.cards = [] := by
  obtain ⟨h1, h2⟩ := g.ensureMinimumHandSize_spec cur
  by_cases hd : g.deck.cards.length ≤ 3 - (g.heap cur).hand.length
  · right
    apply List.eq_nil_of_length_eq_zero
    omega
  · left
    omega

theorem Game.loopPass_topped (g : Game) (cur : Nat) (a : Action) (g1 : Game) (b : Bool)
    (h : g.loopPass cur a = .completed g1 b) :
    3 ≤ (g1.heap cur).hand.length ∨ g1.deck.cards = [] := by
  unfold Game.loopPass at h
  split_ifs at h
  cases a with
  | draw playDrawn =>
    dsimp only at h
    split at h
    · exact absurd h (by simp)
    · simp only [PassResult.completed.injEq] at h
      rw [← h.1]
      exact Game.ensureMinimumHandSize_topped _ _
  | pickup =>
    simp only [PassResult.completed.injEq] at h
    rw [← h.1]
    exact Game.ensureMinimumHandSize_topped _ _
  | cancel => exact absurd h (by simp)
  | play cardIndex =>
    dsimp only at h
    split at h
    · exact absurd h (by simp)
    · simp only [PassResult.completed.injEq] at h
      rw [← h.1]
      exact Game.ensureMinimumHandSize_topped _ _
  | invalid =>
    simp only [PassResult.completed.injEq] at h
    rw [← h.1]
    exact Game.ensureMinimumHandSize_topped _ _

theorem Game.ToppedUp.of_moves {g g1 : Game} {cur : Nat} (ht : g.ToppedUp)
    (hm : g.Moves cur g1)
    (hc : 3 ≤ (g1.heap cur).hand.length ∨ g1.deck.cards = []) : g1.ToppedUp := by
  intro r hr
  by_cases hrc : r = cur
  · rw [hrc]; exact hc
  · rcases ht r (hm.players.subset hr) with h3 | h0
    · left
      rw [hm.frame r hrc]
      exact h3
    · right
      apply List.eq_nil_of_length_eq_zero
      have := hm.deck
      rw [h0] at this
      simpa using this

theorem Game.ToppedUp.endTurn {g : Game} (cur : Nat) (ht : g.ToppedUp) :
    (g.endTurn cur).1.ToppedUp := by
  intro r hr
  have := ht r ((g.endTurn_players_sublist cur).subset hr)
  simpa using this

/-! ### The multiset of all cards -/

theorem sum_range_split (f : Nat → Multiset Slot) (n r : Nat) (hr : r < n) :
    ((List.range n).map f).sum =
      f r + ((List.range n).map (fun x => if x = r then 0 else f x)).sum := by
  induction n with
  | zero => omega
  | succ k ih =>
    rw [List.range_succ, List.map_append, List.map_append, List.sum_append, List.sum_append]
    simp only [List.map_cons, List.map_nil, List.sum_cons, List.sum_nil, add_zero]
    rcases Nat.lt_or_ge r k with h | h
    · rw [ih h, if_neg (by omega)]
      abel
    · have hk : r = k := by omega
      subst hk
      have hsame : (List.range r).map (fun x => if x = r then 0 else f x) = (List.range r).map f := by
        apply List.map_congr_left
        intro x hx
        rw [List.mem_range] at hx
        rw [if_neg (by omega)]
      rw [hsame, if_pos rfl]
      abel

theorem Game.bag_split (n : Nat) (g : Game) (r : Nat) (hr : r < n) :
    g.bag n = g.localBag r + ↑g.tableCards +
      ((List.range n).map (fun x => if x = r then 0 else (g.heap x).own)).sum := by
  unfold Game.bag Game.localBag
  rw [sum_range_split (fun x => (g.heap x).own) n r hr]
  abel

theorem Game.others_eq (n : Nat) {g g1 : Game} {r : Nat}
    (hf : ∀ x, x ≠ r → g1.heap x = g.heap x) :
    ((List.range n).map (fun x => if x = r then 0 else (g1.heap x).own)).sum =
      ((List.range n).map (fun x => if x = r then 0 else (g.heap x).own)).sum := by
  congr 1
  apply List.map_congr_left
  intro x _
  by_cases hx : x = r
  · simp [hx]
  · simp [hx, hf x hx]

theorem Game.bag_eq_of_local (n : Nat) {g g1 : Game} {r : Nat} (hr : r < n)
    (hf : ∀ x, x ≠ r → g1.heap x = g.heap x) (ht : g1.tableCards = g.tableCards)
    (hl : g1.localBag r = g.localBag r) : g1.bag n = g.bag n := by
  rw [g1.bag_split n r hr, g.bag_split n r hr, Game.others_eq n hf, ht, hl]

theorem Game.Moves.bag_le (n : Nat) {g g1 : Game} {cur : Nat} (hm : g.Moves cur g1)
    (hc : cur < n) : g1.bag n ≤ g.bag n := by
  rw [g1.bag_split n cur hc, g.bag_split n cur hc, Game.others_eq n hm.frame, hm.table]
  exact add_le_add (add_le_add hm.bag le_rfl) le_rfl

/-! ### Dealing -/

section Dealing

variable (g : Game) (r : Nat)

@[simp] theorem Game.dealFaceDown_players : (g.dealFaceDown r).players = g.players := rfl

@[simp] theorem Game.dealFaceDown_tableCards : (g.dealFaceDown r).tableCards = g.tableCards := rfl

@[simp] theorem Game.dealFaceDown_currentPlayerIndex :
    (g.dealFaceDown r).currentPlayerIndex = g.currentPlayerIndex := rfl

@[simp] theorem Game.dealFaceDown_playedCardsDeck :
    (g.dealFaceDown r).playedCardsDeck = g.playedCardsDeck := rfl

@[simp] theorem Game.dealFaceDown_lastPlayedCard :
    (g.dealFaceDown r).lastPlayedCard = g.lastPlayedCard := rfl

@[simp] theorem Game.dealFaceDown_deck :
    (g.dealFaceDown r).deck.cards = g.deck.cards.dropLast := rfl

@[simp] theorem Game.dealFaceDown_heap_same :
    (g.dealFaceDown r).heap r =
      { g.heap r with faceDownCards := (g.heap r).faceDownCards ++ [g.deck.cards.getLast?] } := by
  simp [Game.dealFaceDown, Deck.deal]

@[simp] theorem Game.dealFaceDown_heap_ne {x : Nat} (h : x ≠ r) :
    (g.dealFaceDown r).heap x = g.heap x := by
  simp [Game.dealFaceDown, h]

theorem getLast?_of_length_pos {α : Type} (l : List α) (h : 0 < l.length) :
    ∃ c, l.getLast? = some c ∧ l.dropLast ++ [c] = l := by
  have hne : l ≠ [] := by
    intro h0; rw [h0] at h; simp at h
  cases hl : l.getLast? with
  | none => exact absurd (List.getLast?_eq_none_iff.mp hl) hne
  | some c => exact ⟨c, rfl, List.dropLast_append_getLast? c (by simp [hl])⟩

theorem Game.drawCard_localBag (h : 0 < g.deck.cards.length) :
    (g.drawCard r).2.localBag r = g.localBag r := by
  obtain ⟨c, hc, hd⟩ := getLast?_of_length_pos g.deck.cards h
  simp only [Game.localBag, Player.own, Game.drawCard_deck, Game.drawCard_playedCardsDeck,
    Game.drawCard_heap_same, hc]
  conv_rhs => rw [← hd]
  simp only [List.map_append, List.map_cons, List.map_nil, ← Multiset.coe_add]
  abel

theorem Game.dealFaceDown_localBag (h : 0 < g.deck.cards.length) :
    (g.dealFaceDown r).localBag r = g.localBag r := by
  obtain ⟨c, hc, hd⟩ := getLast?_of_length_pos g.deck.cards h
  simp only [Game.localBag, Player.own, Game.dealFaceDown_deck, Game.dealFaceDown_playedCardsDeck,
    Game.dealFaceDown_heap_same, hc]
  conv_rhs => rw [← hd]
  simp only [List.map_append, List.map_cons, List.map_nil, ← Multiset.coe_add]
  abel

end Dealing

section DealingRounds

variable (g : Game) (r : Nat)

@[simp] theorem Game.dealRound_players : (g.dealRound r).players = g.players := rfl

@[simp] theorem Game.dealRound_tableCards : (g.dealRound r).tableCards = g.tableCards := rfl

@[simp] theorem Game.dealRound_currentPlayerIndex :
    (g.dealRound r).currentPlayerIndex = g.currentPlayerIndex := rfl

@[simp] theorem Game.dealRound_playedCardsDeck :
    (g.dealRound r).playedCardsDeck = g.playedCardsDeck := rfl

@[simp] theorem Game.dealRound_lastPlayedCard :
    (g.dealRound r).lastPlayedCard = g.lastPlayedCard := rfl

@[simp] theorem Game.dealRound_deck_length :
    (g.dealRound r).deck.cards.length = g.deck.cards.length - 2 := by
  simp only [Game.dealRound, Game.drawCard_deck, Game.dealFaceDown_deck, List.length_dropLast]
  omega

@[simp] theorem Game.dealRound_heap_ne {x : Nat} (h : x ≠ r) :
    (g.dealRound r).heap x = g.heap x := by
  simp [Game.dealRound, h]

@[simp] theorem Game.dealRound_hand_length :
    ((g.dealRound r).heap r).hand.length = (g.heap r).hand.length + 1 := by
  simp [Game.dealRound]

@[simp] theorem Game.dealRound_faceDown_length :
    ((g.dealRound r).heap r).faceDownCards.length = (g.heap r).faceDownCards.length + 1 := by
  simp [Game.dealRound]

theorem Game.dealRound_bag (n : Nat) (hr : r < n) (hd : 2 ≤ g.deck.cards.length) :
    (g.dealRound r).bag n = g.bag n := by
  refine @Game.bag_eq_of_local n g (g.dealRound r) r hr (fun x hx => by simp [hx]) rfl ?_
  have h1 : 0 < g.deck.cards.length := by omega
  have h2 : 0 < (g.dealFaceDown r).deck.cards.length := by
    simp only [Game.dealFaceDown_deck, List.length_dropLast]
    omega
  rw [Game.dealRound, Game.drawCard_localBag _ _ h2, Game.dealFaceDown_localBag _ _ h1]

@[simp] theorem Game.dealPlayer_players : (g.dealPlayer r).players = g.players := rfl

@[simp] theorem Game.dealPlayer_tableCards : (g.dealPlayer r).tableCards = g.tableCards := rfl

@[simp] theorem Game.dealPlayer_currentPlayerIndex :
    (g.dealPlayer r).currentPlayerIndex = g.currentPlayerIndex := rfl

@[simp] theorem Game.dealPlayer_playedCardsDeck :
    (g.dealPlayer r).playedCardsDeck = g.playedCardsDeck := rfl

@[simp] theorem Game.dealPlayer_lastPlayedCard :
    (g.dealPlayer r).lastPlayedCard = g.lastPlayedCard := rfl

@[simp] theorem Game.dealPlayer_deck_length :
    (g.dealPlayer r).deck.cards.length = g.deck.cards.length - 6 := by
  simp only [Game.dealPlayer, Game.dealRound_deck_length]
  omega

@[simp] theorem Game.dealPlayer_heap_ne {x : Nat} (h : x ≠ r) :
    (g.dealPlayer r).heap x = g.heap x := by
  simp [Game.dealPlayer, h]

@[simp] theorem Game.dealPlayer_hand_length :
    ((g.dealPlayer r).heap r).hand.length = (g.heap r).hand.length + 3 := by
  simp [Game.dealPlayer]

@[simp] theorem Game.dealPlayer_faceDown_length :
    ((g.dealPlayer r).heap r).faceDownCards.length = (g.heap r).faceDownCards.length + 3 := by
  simp [Game.dealPlayer]

theorem Game.dealPlayer_bag (n : Nat) (hr : r < n) (hd : 6 ≤ g.deck.cards.length) :
    (g.dealPlayer r).bag n = g.bag n := by
  unfold Game.dealPlayer
  rw [Game.dealRound_bag _ _ n hr, Game.dealRound_bag _ _ n hr, Game.dealRound_bag _ _ n hr]
  · omega
  · simp only [Game.dealRound_deck_length]; omega
  · simp only [Game.dealRound_deck_length]; omega

@[simp] theorem Game.dealTable_players : g.dealTable.players = g.players := rfl

@[simp] theorem Game.dealTable_heap : g.dealTable.heap = g.heap := rfl

@[simp] theorem Game.dealTable_currentPlayerIndex :
    g.dealTable.currentPlayerIndex = g.currentPlayerIndex := rfl

@[simp] theorem Game.dealTable_playedCardsDeck :
    g.dealTable.playedCardsDeck = g.playedCardsDeck := rfl

@[simp] theorem Game.dealTable_lastPlayedCard :
    g.dealTable.lastPlayedCard = g.lastPlayedCard := rfl

@[simp] theorem Game.dealTable_deck_length :
    g.dealTable.deck.cards.length = g.deck.cards.length - 1 := by
  simp [Game.dealTable, Deck.deal]

@[simp] theorem Game.dealTable_tableCards_length :
    g.dealTable.tableCards.length = g.tableCards.length + 1 := by
  simp [Game.dealTable]

theorem Game.dealTable_bag (n : Nat) (hd : 1 ≤ g.deck.cards.length) :
    g.dealTable.bag n = g.bag n := by
  obtain ⟨c, hc, hd⟩ := getLast?_of_length_pos g.deck.cards hd
  simp only [Game.bag, Game.dealTable, Deck.deal, hc]
  conv_rhs => rw [← hd]
  simp only [List.map_append, List.map_cons, List.map_nil, ← Multiset.coe_add]
  abel

end DealingRounds

/-- The state after the first `k` players have been dealt their cards. -/
theorem Game.dealRange (g0 : Game) (k : Nat) :
    ((List.range k).foldl Game.dealPlayer g0).players = g0.players ∧
    ((List.range k).foldl Game.dealPlayer g0).currentPlayerIndex = g0.currentPlayerIndex ∧
    ((List.range k).foldl Game.dealPlayer g0).tableCards = g0.tableCards ∧
    ((List.range k).foldl Game.dealPlayer g0).deck.cards.length = g0.deck.cards.length - 6 * k ∧
    (∀ x, k ≤ x → ((List.range k).foldl Game.dealPlayer g0).heap x = g0.heap x) ∧
    (∀ x, x < k →
      (((List.range k).foldl Game.dealPlayer g0).heap x).hand.length =
        (g0.heap x).hand.length + 3 ∧
      (((List.range k).foldl Game.dealPlayer g0).heap x).faceDownCards.length =
        (g0.heap x).faceDownCards.length + 3) ∧
    (∀ n, k ≤ n → 6 * k ≤ g0.deck.cards.length →
      ((List.range k).foldl Game.dealPlayer g0).bag n = g0.bag n) := by
  induction k with
  | zero => simp
  | succ k ih =>
    obtain ⟨h1, h2, h3, h4, h5, h6, h7⟩ := ih
    rw [List.range_succ, List.foldl_append]
    simp only [List.foldl_cons, List.foldl_nil]
    refine ⟨by simp [h1], by simp [h2], by simp [h3], ?_, ?_, ?_, ?_⟩
    · simp only [Game.dealPlayer_deck_length, h4]; omega
    · intro x hx
      rw [Game.dealPlayer_heap_ne _ _ (by omega), h5 x (by omega)]
    · intro x hx
      rcases Nat.lt_or_ge x k with hlt | hge
      · rw [Game.dealPlayer_heap_ne _ _ (by omega)]
        exact h6 x hlt
      · have hxk : x = k := by omega
        subst hxk
        simp only [Game.dealPlayer_hand_length, Game.dealPlayer_faceDown_length, h5 x (le_refl _)]
        exact ⟨trivial, trivial⟩
    · intro n hn hd
      rw [Game.dealPlayer_bag _ _ n (by omega) (by rw [h4]; omega), h7 n (by omega) (by omega)]

/-! ### Shuffling -/

theorem coe_set_add {α : Type} :
    ∀ (l : List α) (i : Nat) (a b : α), l[i]? = some a →
      (↑(l.set i b) : Multiset α) + {a} = ↑l + {b}
  | [], _, _, _, h => by simp at h
  | x :: xs, 0, a, b, h => by
    simp only [List.getElem?_cons_zero, Option.some.injEq] at h
    subst h
    simp only [List.set_cons_zero, ← Multiset.cons_coe, ← Multiset.singleton_add]
    abel
  | x :: xs, i + 1, a, b, h => by
    simp only [List.getElem?_cons_succ] at h
    have ih := coe_set_add xs i a b h
    simp only [List.set_cons_succ, ← Multiset.cons_coe, ← Multiset.singleton_add]
    rw [add_assoc, ih]
    abel

theorem Deck.swap_perm (cards : List Card) (i j : Nat) : List.Perm (Deck.swap cards i j) cards := by
  unfold Deck.swap
  split
  · rename_i a b ha hb
    have h1 := coe_set_add cards i a b ha
    have hj : (cards.set i b)[j]? = some b := by
      by_cases hij : i = j
      · subst hij
        have hi : i < cards.length := by
          rcases Nat.lt_or_ge i cards.length with h | h
          · exact h
          · rw [List.getElem?_eq_none h] at ha; simp at ha
        simp [List.getElem?_set_self, hi]
      · rw [List.getElem?_set_ne hij]
        exact hb
    have h2 := coe_set_add (cards.set i b) j b a hj
    apply Multiset.coe_eq_coe.mp
    exact add_right_cancel (h2.trans h1)
  · exact List.Perm.refl _

theorem Deck.shuffleLoop_perm (pick : Nat → Nat) :
    ∀ (i : Nat) (cards : List Card), List.Perm (Deck.shuffleLoop pick i cards) cards
  | 0, _ => List.Perm.refl _
  | i + 1, cards =>
    (Deck.shuffleLoop_perm pick i _).trans (Deck.swap_perm cards _ _)

theorem Deck.shuffle_perm (pick : Nat → Nat) (d : Deck) :
    List.Perm (d.shuffle pick).cards d.cards :=
  Deck.shuffleLoop_perm pick _ _

/-! ### The new game -/

theorem Game.new_players (n : Nat) (pick : Nat → Nat) : (Game.new n pick).players = List.range n := by
  simp [Game.new, Game.blank, Game.dealInitialCards, Game.initPlayers, (Game.dealRange _ n).1]

theorem Game.new_currentPlayerIndex (n : Nat) (pick : Nat → Nat) :
    (Game.new n pick).currentPlayerIndex = some 0 := by
  simp [Game.new, Game.blank, Game.dealInitialCards, Game.initPlayers, (Game.dealRange _ n).2.1]

theorem Game.new_pile (n : Nat) (pick : Nat → Nat) :
    (Game.new n pick).lastPlayedCard = none ∧ (Game.new n pick).playedCardsDeck = [] :=
  ⟨rfl, rfl⟩

theorem Game.new_tableCards_length (n : Nat) (pick : Nat → Nat) :
    (Game.new n pick).tableCards.length = 3 := by
  simp [Game.new, Game.blank, Game.dealInitialCards, Game.initPlayers, (Game.dealRange _ n).2.2.1]

theorem Game.new_hands (n : Nat) (pick : Nat → Nat) (x : Nat) (hx : x < n) :
    ((Game.new n pick).heap x).hand.length = 3 ∧
      ((Game.new n pick).heap x).faceDownCards.length = 3 := by
  have h := (Game.dealRange
    ((Game.blank pick).initPlayers n) n).2.2.2.2.2.1 x hx
  simpa [Game.new, Game.blank, Game.dealInitialCards, Game.initPlayers, hx] using h

theorem Deck.createDeck_length : Deck.createDeck.cards.length = 52 := rfl

theorem Game.new_deck_length (n : Nat) (pick : Nat → Nat) :
    (Game.new n pick).deck.cards.length = 52 - 6 * n - 3 := by
  have hs : (Deck.createDeck.shuffle pick).cards.length = 52 :=
    (Deck.shuffle_perm pick _).length_eq.trans Deck.createDeck_length
  have h := (Game.dealRange
    ((Game.blank pick).initPlayers n) n).2.2.2.1
  simp only [Game.new, Game.blank, Game.dealInitialCards, Game.initPlayers, List.nil_append,
    Game.dealTable_deck_length] at h ⊢
  rw [h, hs]
  omega

theorem Game.foldl_dealPlayer_playedCardsDeck (l : List Nat) (g : Game) :
    (l.foldl Game.dealPlayer g).playedCardsDeck = g.playedCardsDeck := by
  induction l generalizing g with
  | nil => rfl
  | cons r rs ih => rw [List.foldl_cons, ih]; rfl

/-- The state of `new Game(n)` just after `initPlayers`. -/
theorem Game.bag_initPlayers (n : Nat) (pick : Nat → Nat) :
    ((Game.blank pick).initPlayers n).bag n =
      ↑(Deck.createDeck.cards.map some) := by
  have hz : ∀ r : Nat, (if r < n then (⟨r, [], []⟩ : Player) else ⟨r, [], []⟩).own = 0 := by
    intro r
    split_ifs <;> simp [Player.own]
  have hp : (↑((Deck.createDeck.shuffle pick).cards.map some) : Multiset Slot) =
      ↑(Deck.createDeck.cards.map some) :=
    Multiset.coe_eq_coe.mpr ((Deck.shuffle_perm pick _).map some)
  simp only [Game.bag, Game.initPlayers, Game.blank, hz, hp, List.map_nil, Multiset.coe_nil,
    add_zero]
  simp

/-- With at most 8 players the deck lasts through the deal, and the new game holds exactly
the 52 cards of `createDeck`, the three table cards included. -/
theorem Game.new_bag (n : Nat) (pick : Nat → Nat) (hn : 6 * n + 3 ≤ 52) :
    (Game.new n pick).bag n = ↑(Deck.createDeck.cards.map some) := by
  have hs : (Deck.createDeck.shuffle pick).cards.length = 52 :=
    (Deck.shuffle_perm pick _).length_eq.trans Deck.createDeck_length
  generalize hg0 : (Game.blank pick).initPlayers n = g0
  have hb0 : g0.bag n = ↑(Deck.createDeck.cards.map some) := by
    rw [← hg0]; exact Game.bag_initPlayers n pick
  have hd0 : g0.deck.cards.length = 52 := by rw [← hg0]; exact hs
  have hpl : g0.players = List.range n := by rw [← hg0]; simp [Game.initPlayers, Game.blank]
  have hpile0 : g0.playedCardsDeck = [] := by rw [← hg0]; rfl
  obtain ⟨-, -, -, h4, -, -, h7⟩ := Game.dealRange g0 n
  have hbag1 := h7 n (le_refl _) (by omega)
  have hnew : Game.new n pick =
      { g0.dealInitialCards with lastPlayedCard := none, playedCardsDeck := [] } := by
    rw [← hg0]; rfl
  have hpile : g0.dealInitialCards.playedCardsDeck = [] := by
    simp only [Game.dealInitialCards, Game.dealTable_playedCardsDeck,
      Game.foldl_dealPlayer_playedCardsDeck, hpile0]
  have hsame : ({ g0.dealInitialCards with lastPlayedCard := none, playedCardsDeck := [] } :
      Game).bag n = g0.dealInitialCards.bag n := by
    simp only [Game.bag, hpile]
  rw [hnew, hsame]
  simp only [Game.dealInitialCards, hpl]
  rw [Game.dealTable_bag, Game.dealTable_bag, Game.dealTable_bag, hbag1, hb0]
  · rw [h4]; omega
  · simp only [Game.dealTable_deck_length, h4]; omega
  · simp only [Game.dealTable_deck_length, h4]; omega

/-! ### The index of the current player -/

theorem Game.NanOnlyEmpty.nan_congr {g g1 : Game} (h : g.NanOnlyEmpty)
    (hp : g1.players = g.players) (hc : g1.currentPlayerIndex = g.currentPlayerIndex) :
    g1.NanOnlyEmpty := by
  intro h0
  rw [hp]
  exact h (hc ▸ h0)

theorem Game.IndexOk.indexOk_congr {g g1 : Game} (h : g.IndexOk)
    (hp : g1.players = g.players) (hc : g1.currentPlayerIndex = g.currentPlayerIndex) :
    g1.IndexOk := by
  unfold Game.IndexOk Game.ValidIndex at *
  rw [hp, hc]
  exact h

theorem Game.IndexOk.nanOnlyEmpty {g : Game} (h : g.IndexOk) : g.NanOnlyEmpty := by
  intro h0
  rcases h with h | ⟨i, hi, _⟩
  · exact h
  · rw [hi] at h0; simp at h0

theorem jsMod_eq_none {a : Option Nat} {n : Nat} (h : jsMod a n = none) : a = none ∨ n = 0 := by
  unfold jsMod at h
  cases a with
  | none => exact Or.inl rfl
  | some k =>
    right
    by_contra hn
    simp [hn] at h

theorem jsMod_some (k n : Nat) (hn : n ≠ 0) : jsMod (some k) n = some (k % n) := by
  simp [jsMod, hn]

theorem Game.checkPlayerWin_nan {g : Game} (cur : Nat) (h : g.NanOnlyEmpty) :
    (g.checkPlayerWin cur).1.NanOnlyEmpty := by
  unfold Game.checkPlayerWin
  dsimp only
  split_ifs
  · intro h0
    simp only at h0 ⊢
    rw [h h0]
    rfl
  · intro h0
    simp only at h0 ⊢
    rcases jsMod_eq_none h0 with h1 | h1
    · rw [h h1]; rfl
    · exact List.eq_nil_of_length_eq_zero h1
  · exact h

theorem Game.checkPlayerWin_indexOk {g : Game} (cur : Nat) (h : g.NanOnlyEmpty)
    (hb : (g.checkPlayerWin cur).2 = false) (hq : g.IndexOk) :
    (g.checkPlayerWin cur).1.IndexOk := by
  unfold Game.checkPlayerWin at hb ⊢
  dsimp only at hb ⊢
  split_ifs at hb ⊢
  · by_cases hl : (g.players.eraseIdx (g.currentPlayerIndex.getD 0)).length = 0
    · left
      exact List.eq_nil_of_length_eq_zero hl
    · right
      cases hc : g.currentPlayerIndex with
      | none =>
        exfalso
        apply hl
        rw [h hc]
        rfl
      | some k =>
        refine ⟨k % (g.players.eraseIdx ((some k : Option Nat).getD 0)).length, ?_, ?_⟩
        · simp only
          rw [hc] at hl
          exact jsMod_some _ _ hl
        · rw [hc] at hl
          exact Nat.mod_lt _ (Nat.pos_of_ne_zero hl)
  · exact hq

theorem Game.endTurn_nan {g : Game} (cur : Nat) (h : g.NanOnlyEmpty) :
    (g.endTurn cur).1.NanOnlyEmpty := by
  have h1 := Game.checkPlayerWin_nan cur h
  unfold Game.endTurn
  dsimp only
  split_ifs
  · exact h1
  · intro h0
    simp only [Game.nextPlayer] at h0 ⊢
    rcases jsMod_eq_none h0 with h2 | h2
    · apply h1
      cases hc : (g.checkPlayerWin cur).1.currentPlayerIndex with
      | none => rfl
      | some k => rw [hc] at h2; simp at h2
    · exact List.eq_nil_of_length_eq_zero h2

theorem Game.endTurn_indexOk {g : Game} (cur : Nat) (h : g.NanOnlyEmpty)
    (hb : (g.endTurn cur).2 = false) : (g.endTurn cur).1.IndexOk := by
  have h1 := Game.checkPlayerWin_nan cur h
  unfold Game.endTurn at hb ⊢
  dsimp only at hb ⊢
  split_ifs at hb ⊢
  by_cases hl : (g.checkPlayerWin cur).1.players.length = 0
  · left
    exact List.eq_nil_of_length_eq_zero hl
  · right
    cases hc : (g.checkPlayerWin cur).1.currentPlayerIndex with
    | none => exact absurd (by rw [h1 hc]; rfl) hl
    | some k =>
      refine ⟨(k + 1) % (g.checkPlayerWin cur).1.players.length, ?_, ?_⟩
      · simp only [Game.nextPlayer, hc, Option.map_some']
        exact jsMod_some _ _ hl
      · exact Nat.mod_lt _ (Nat.pos_of_ne_zero hl)

theorem Game.handleDraw_index (g : Game) (cur : Nat) (playDrawn : Bool) (r : Game × Bool)
    (h : g.handleDraw cur playDrawn = some r) :
    r.1.players = g.players ∧ r.1.currentPlayerIndex = g.currentPlayerIndex := by
  unfold Game.handleDraw at h
  split_ifs at h with hd
  · dsimp only at h
    split at h
    · exact absurd h (by simp)
    · split_ifs at h
      all_goals (simp only [Option.some.injEq] at h; subst h; exact ⟨rfl, rfl⟩)
  · simp only [Option.some.injEq] at h
    subst h
    exact ⟨rfl, rfl⟩

theorem Game.handlePlayCard_index (g : Game) (cur : Nat) (cardIndex : Option Int)
    (r : Game × Bool) (h : g.handlePlayCard cur cardIndex = some r) :
    (r.1.players = g.players ∧ r.1.currentPlayerIndex = g.currentPlayerIndex) ∨
      ∃ g3 : Game, g3.players = g.players ∧ g3.currentPlayerIndex = g.currentPlayerIndex ∧
        (g3.heap cur).hand.length = 0 ∧ r = g3.checkPlayerWin cur := by
  cases cardIndex with
  | none =>
    simp only [Game.handlePlayCard, Option.some.injEq] at h
    subst h
    exact Or.inl ⟨rfl, rfl⟩
  | some i =>
    by_cases hr : 0 ≤ i ∧ i < ((g.heap cur).hand.length : Int)
    · obtain ⟨h0, hlt⟩ := hr
      lift i to ℕ using h0
      have hk : i < (g.heap cur).hand.length := by exact_mod_cast hlt
      have hget : (g.heap cur).hand[i]? = some (g.heap cur).hand[i] :=
        List.getElem?_eq_getElem hk
      cases hs : (g.heap cur).hand[i] with
      | none =>
        rw [hs] at hget
        rw [g.handlePlayCard_undefined cur i hget] at h
        exact absurd h (by simp)
      | some c =>
        rw [hs] at hget
        rw [g.handlePlayCard_inRange cur i c hget] at h
        split_ifs at h with hv h10 hz
        · simp only [Option.some.injEq] at h
          right
          refine ⟨{ g.setObj cur { g.heap cur with hand := (g.heap cur).hand.eraseIdx i } with
            playedCardsDeck := [], lastPlayedCard := none }, rfl, rfl, ?_, h.symm⟩
          rw [Game.setObj_heap_same]
          exact hz
        · simp only [Option.some.injEq] at h
          subst h
          exact Or.inl ⟨rfl, rfl⟩
        · simp only [Option.some.injEq] at h
          subst h
          exact Or.inl ⟨rfl, rfl⟩
        · simp only [Option.some.injEq] at h
          subst h
          exact Or.inl ⟨rfl, rfl⟩
    · rw [g.handlePlayCard_outOfRange cur i hr] at h
      simp only [Option.some.injEq] at h
      subst h
      exact Or.inl ⟨rfl, rfl⟩

/-- What a completed pass of the loop of `playTurn` does to the active list and the index:
nothing, or what one `checkPlayerWin` of the emptied current hand does (whose flag is then
the flag of the pass). -/
theorem Game.loopPass_index (g : Game) (cur : Nat) (a : Action) (g1 : Game) (b : Bool)
    (h : g.loopPass cur a = .completed g1 b) :
    (g1.players = g.players ∧ g1.currentPlayerIndex = g.currentPlayerIndex) ∨
      ∃ g3 : Game, g3.players = g.players ∧ g3.currentPlayerIndex = g.currentPlayerIndex ∧
        (g3.heap cur).hand.length = 0 ∧
        g1.players = (g3.checkPlayerWin cur).1.players ∧
        g1.currentPlayerIndex = (g3.checkPlayerWin cur).1.currentPlayerIndex ∧
        b = (g3.checkPlayerWin cur).2 := by
  unfold Game.loopPass at h
  split_ifs at h
  cases a with
  | draw playDrawn =>
    dsimp only at h
    split at h
    · exact absurd h (by simp)
    · rename_i r hr
      simp only [PassResult.completed.injEq] at h
      rw [← h.1]
      left
      simpa using g.handleDraw_index cur playDrawn r hr
  | pickup =>
    simp only [PassResult.completed.injEq] at h
    rw [← h.1]
    exact Or.inl ⟨by simp [Game.handlePickup], by simp [Game.handlePickup]⟩
  | cancel => exact absurd h (by simp)
  | play cardIndex =>
    dsimp only at h
    split at h
    · exact absurd h (by simp)
    · rename_i r hr
      simp only [PassResult.completed.injEq] at h
      rw [← h.1, ← h.2]
      rcases g.handlePlayCard_index cur cardIndex r hr with h1 | ⟨g3, h3, h4, h5, h6⟩
      · left
        simpa using h1
      · right
        refine ⟨g3, h3, h4, h5, ?_, ?_, ?_⟩
        · simp [h6]
        · simp [h6]
        · rw [h6]
  | invalid =>
    simp only [PassResult.completed.injEq] at h
    rw [← h.1]
    exact Or.inl ⟨by simp, by simp⟩

theorem Game.loopPass_nan (g : Game) (cur : Nat) (a : Action) (g1 : Game) (b : Bool)
    (h : g.loopPass cur a = .completed g1 b) (hn : g.NanOnlyEmpty) : g1.NanOnlyEmpty := by
  rcases g.loopPass_index cur a g1 b h with ⟨hp, hc⟩ | ⟨g3, hp, hc, -, hp1, hc1, -⟩
  · exact hn.nan_congr hp hc
  · exact (Game.checkPlayerWin_nan cur (hn.nan_congr hp hc)).nan_congr hp1 hc1

theorem Game.loopPass_indexOk (g : Game) (cur : Nat) (a : Action) (g1 : Game)
    (h : g.loopPass cur a = .completed g1 false) (hq : g.IndexOk) : g1.IndexOk := by
  rcases g.loopPass_index cur a g1 false h with ⟨hp, hc⟩ | ⟨g3, hp, hc, -, hp1, hc1, hb⟩
  · exact hq.indexOk_congr hp hc
  · have hq3 : g3.IndexOk := hq.indexOk_congr hp hc
    exact (Game.checkPlayerWin_indexOk cur hq3.nanOnlyEmpty hb.symm hq3).indexOk_congr hp1 hc1

/-! ### The starting player -/

theorem Game.scanHand_index (i : Nat) :
    ∀ (hand : List Slot) (acc acc1 : Lowest), Game.scanHand i hand acc = some acc1 →
      acc1.startingPlayerIndex = acc.startingPlayerIndex ∨ acc1.startingPlayerIndex = i
  | [], acc, acc1, h => by
    simp only [Game.scanHand, Option.some.injEq] at h
    exact Or.inl (h ▸ rfl)
  | none :: _, acc, acc1, h => by simp [Game.scanHand] at h
  | some card :: rest, acc, acc1, h => by
    unfold Game.scanHand at h
    dsimp only at h
    split_ifs at h
    · rcases Game.scanHand_index i rest _ acc1 h with h1 | h1
      · exact Or.inr h1
      · exact Or.inr h1
    · exact Game.scanHand_index i rest acc acc1 h

theorem Game.scanPlayers_index (g : Game) :
    ∀ (l : List Nat) (i : Nat) (acc acc1 : Lowest), g.scanPlayers i l acc = some acc1 →
      acc1.startingPlayerIndex = acc.startingPlayerIndex ∨
        (i ≤ acc1.startingPlayerIndex ∧ acc1.startingPlayerIndex < i + l.length)
  | [], i, acc, acc1, h => by
    simp only [Game.scanPlayers, Option.some.injEq] at h
    exact Or.inl (h ▸ rfl)
  | r :: rs, i, acc, acc1, h => by
    unfold Game.scanPlayers at h
    split at h
    · exact absurd h (by simp)
    · rename_i acc2 h2
      have hh := Game.scanHand_index i _ acc acc2 h2
      have hp := Game.scanPlayers_index g rs (i + 1) acc2 acc1 h
      simp only [List.length_cons]
      rcases hp with hp | hp
      · rcases hh with hh | hh
        · exact Or.inl (hp.trans hh)
        · right
          rw [hp, hh]
          omega
      · right
        omega

theorem Game.setStartingPlayer_eq (g g1 : Game) (h : g.setStartingPlayer = some g1) :
    ∃ idx, g1 = { g with currentPlayerIndex := some idx } ∧ (idx = 0 ∨ idx < g.players.length) := by
  unfold Game.setStartingPlayer at h
  split at h
  · exact absurd h (by simp)
  · rename_i acc hacc
    simp only [Option.some.injEq] at h
    refine ⟨acc.startingPlayerIndex, h.symm, ?_⟩
    rcases Game.scanPlayers_index g g.players 0 _ acc hacc with h1 | h1
    · exact Or.inl h1
    · right
      omega

/-! ### The invariant of the script -/

theorem Cfg.run_induction (P : Cfg → Prop) (hstep : ∀ c a, P c → P (c.step a)) :
    ∀ (acts : List Action) (c : Cfg), P c → P (c.run acts) := by
  intro acts
  induction acts with
  | nil => intro c hc; exact hc
  | cons a rest ih =>
    intro c hc
    exact ih (c.step a) (hstep c a hc)

theorem Cfg.Inv.pass {n : Nat} {B : Multiset Slot} {g : Game} {cur : Nat} (a : Action)
    (hs : g.Sound n B) (hq : g.IndexOk) (hc : cur < n) : (Cfg.pass g cur a).Inv n B := by
  unfold Cfg.pass
  split
  · trivial
  · rename_i g1 hp
    rw [g.loopPass_cancelled cur a g1 hp]
    exact hs
  · rename_i g1 hp
    have hm := g.loopPass_moves cur a g1 false hp
    exact ⟨⟨hs.topped.of_moves hm (g.loopPass_topped cur a g1 false hp),
      le_trans (hm.bag_le n hc) hs.bag, hm.players.trans hs.refs,
      g.loopPass_nan cur a g1 false hp hs.nan⟩, g.loopPass_indexOk cur a g1 hp hq, hc⟩
  · rename_i g1 hp
    have hm := g.loopPass_moves cur a g1 true hp
    have hs1 : g1.Sound n B :=
      ⟨hs.topped.of_moves hm (g.loopPass_topped cur a g1 true hp),
        le_trans (hm.bag_le n hc) hs.bag, hm.players.trans hs.refs,
        g.loopPass_nan cur a g1 true hp hs.nan⟩
    have hm2 := g1.endTurn_moves cur
    have hs2 : (g1.endTurn cur).1.Sound n B :=
      ⟨hs1.topped.endTurn cur, le_trans (hm2.bag_le n hc) hs1.bag, hm2.players.trans hs1.refs,
        Game.endTurn_nan cur hs1.nan⟩
    split_ifs with hb
    · exact hs2
    · exact ⟨hs2, Game.endTurn_indexOk cur hs1.nan (by simpa using hb)⟩

theorem Cfg.Inv.step {n : Nat} {B : Multiset Slot} (c : Cfg) (a : Action) (h : c.Inv n B) :
    (c.step a).Inv n B := by
  cases c with
  | idle g =>
    obtain ⟨hs, hq⟩ := h
    unfold Cfg.step
    dsimp only
    split_ifs
    · exact hs
    · split
      · trivial
      · rename_i cur hcur
        have hmem : cur ∈ g.players := by
          unfold Game.currentPlayer at hcur
          split at hcur
          · exact absurd hcur (by simp)
          · exact List.getElem?_mem hcur
        have hlt : cur < n := List.mem_range.mp (hs.refs.subset hmem)
        exact Cfg.Inv.pass a hs hq hlt
  | acting g cur =>
    obtain ⟨hs, hq, hc⟩ := h
    exact Cfg.Inv.pass a hs hq hc
  | over g => exact h
  | crashed => trivial

theorem Cfg.Inv.start (n : Nat) (pick : Nat → Nat) :
    (Cfg.start n pick).Inv n ((Game.new n pick).bag n) := by
  unfold Cfg.start
  split
  · trivial
  · rename_i g hg
    obtain ⟨idx, rfl, hidx⟩ := Game.setStartingPlayer_eq _ g hg
    have hpl := Game.new_players n pick
    refine ⟨⟨?_, le_refl _, by simp [hpl], fun h0 => by simp at h0⟩, ?_⟩
    · intro r hr
      left
      have hr' : r < n := by
        have : r ∈ (Game.new n pick).players := hr
        rw [hpl] at this
        exact List.mem_range.mp this
      exact le_of_eq (Game.new_hands n pick r hr').1.symm
    · by_cases hn : n = 0
      · left
        show (Game.new n pick).players = []
        rw [hpl, hn]
        rfl
      · right
        refine ⟨idx, rfl, ?_⟩
        show idx < (Game.new n pick).players.length
        rw [hpl, List.length_range] at hidx ⊢
        omega

theorem Cfg.Inv.run (n : Nat) (pick : Nat → Nat) (acts : List Action) :
    ((Cfg.start n pick).run acts).Inv n ((Game.new n pick).bag n) :=
  Cfg.run_induction _ (fun c a h => Cfg.Inv.step c a h) acts _ (Cfg.Inv.start n pick)

/-! ### Cards in play -/

theorem coe_flatten_map (l : List Nat) (f : Nat → List Slot) :
    (↑((l.map f).flatten) : Multiset Slot) = (l.map (fun r => (↑(f r) : Multiset Slot))).sum := by
  induction l with
  | nil => rfl
  | cons r rs ih =>
    simp only [List.map_cons, List.flatten_cons, List.sum_cons, ← Multiset.coe_add, ih]

theorem Game.coe_cardsInPlay (g : Game) :
    (↑(g.cardsInPlay ++ g.tableCards) : Multiset Slot) =
      ↑(g.deck.cards.map some) + ↑(g.playedCardsDeck.map some) + ↑g.tableCards +
        (g.players.map (fun r => (g.heap r).own)).sum := by
  have hown : (g.players.map (fun r => (g.heap r).own)).sum =
      (g.players.map (fun r => (↑(g.heap r).hand : Multiset Slot))).sum +
        (g.players.map (fun r => (↑(g.heap r).faceDownCards : Multiset Slot))).sum := by
    simp only [Player.own]
    exact List.sum_map_add
  rw [hown]
  simp only [Game.cardsInPlay, ← Multiset.coe_add, coe_flatten_map]
  abel

theorem Game.cardsInPlay_le_bag (n : Nat) (g : Game) (h : g.players.Sublist (List.range n)) :
    (↑(g.cardsInPlay ++ g.tableCards) : Multiset Slot) ≤ g.bag n := by
  rw [g.coe_cardsInPlay]
  unfold Game.bag
  exact add_le_add le_rfl
    ((h.map (fun r => (g.heap r).own)).sum_le_sum (fun a _ => Multiset.zero_le a))

theorem Game.cardsInPlay_eq_bag (n : Nat) (g : Game) (h : g.players = List.range n) :
    (↑(g.cardsInPlay ++ g.tableCards) : Multiset Slot) = g.bag n := by
  rw [g.coe_cardsInPlay, h]
  rfl

theorem Deck.createDeck_nodup : (Deck.createDeck.cards.map some).Nodup :=
  List.Nodup.map (Option.some_injective _) (by decide)

/-! ### The claims about the whole game -/

theorem Cfg.Inv.sound {n : Nat} {B : Multiset Slot} {c : Cfg} (h : c.Inv n B) (g : Game)
    (hg : c.game? = some g) : g.Sound n B := by
  cases c with
  | idle g1 =>
    simp only [Cfg.game?, Option.some.injEq] at hg
    exact hg ▸ h.1
  | acting g1 cur =>
    simp only [Cfg.game?, Option.some.injEq] at hg
    exact hg ▸ h.1
  | over g1 =>
    simp only [Cfg.game?, Option.some.injEq] at hg
    exact hg ▸ h
  | crashed => simp [Cfg.game?] at hg

theorem Cfg.Inv.indexOk {n : Nat} {B : Multiset Slot} {c : Cfg} (h : c.Inv n B) (g : Game)
    (hg : c.running? = some g) : g.IndexOk := by
  cases c with
  | idle g1 =>
    simp only [Cfg.running?, Option.some.injEq] at hg
    exact hg ▸ h.2
  | acting g1 cur =>
    simp only [Cfg.running?, Option.some.injEq] at hg
    exact hg ▸ h.2.1
  | over g1 => simp [Cfg.running?] at hg
  | crashed => simp [Cfg.running?] at hg

set_option maxRecDepth 100000 in
/-- C2 as stated fails in the new game already: with two players, the deck, the two hands,
the two face-down sets and the (empty) discard pile hold 49 cards, not 52, the other three
being the table cards; so they are not a rearrangement of the 52 cards. And the table cards
counted in, the total still falls below 52 when a 10 is played: in the three-player game
dealt from the unshuffled deck, after player 1 has picked up the empty pile and player 2
has played the 10 of clubs, 51 cards are left and the 10 of clubs is none of them. -/
theorem cards_in_play_fewer_than_52 :
    ((Game.new 2 pickLast).cardsInPlay.length = 49 ∧
      (Game.new 2 pickLast).tableCards =
        [some ⟨.Spades, .r2⟩, some ⟨.Clubs, .A⟩, some ⟨.Clubs, .K⟩] ∧
      ¬ List.Perm (Game.new 2 pickLast).cardsInPlay (Deck.createDeck.cards.map some)) ∧
    ∃ g, (Cfg.start 3 pickLast).run [.pickup, .play (some 2)] = .acting g 2 ∧
      (g.cardsInPlay ++ g.tableCards).length = 51 ∧
      some ⟨.Clubs, .r10⟩ ∉ g.cardsInPlay ++ g.tableCards :=
  ⟨⟨by decide!, by decide!, fun h => absurd h.length_eq (by decide!)⟩,
    _, rfl, by decide!, by decide!⟩

/-- C4: at every point of a game of 2 to 5 players that the script reaches between two
passes of the loop of `playTurn` (and so between two turns, and when the game loop is left),
and also right after every completed pass of that loop, every active player holds at least
3 hand entries or the deck is empty; and `ensureMinimumHandSize` ends with its loop
condition false, having moved exactly `min (3 - hand size) (deck size)` cards (the
subtraction stopping at 0) from the deck to the hand. -/
theorem topUp_invariant (n : Nat) (pick : Nat → Nat) (acts : List Action) (g : Game)
    (_h2 : 2 ≤ n) (_h5 : n ≤ 5) (hg : ((Cfg.start n pick).run acts).game? = some g) :
    (∀ r ∈ g.players, 3 ≤ (g.heap r).hand.length ∨ g.deck.cards = []) ∧
    (∀ (cur : Nat) (a : Action) (g1 : Game) (b : Bool),
      ((Cfg.start n pick).run acts).loopHead? = some (g, cur) →
      g.loopPass cur a = .completed g1 b →
      ∀ r ∈ g1.players, 3 ≤ (g1.heap r).hand.length ∨ g1.deck.cards = []) ∧
    (∀ (g1 : Game) (cur : Nat),
      ((g1.ensureMinimumHandSize cur).heap cur).hand.length =
        (g1.heap cur).hand.length + min (3 - (g1.heap cur).hand.length) g1.deck.cards.length ∧
      (g1.ensureMinimumHandSize cur).deck.cards.length =
        g1.deck.cards.length - min (3 - (g1.heap cur).hand.length) g1.deck.cards.length ∧
      ¬ (((g1.ensureMinimumHandSize cur).heap cur).hand.length < 3 ∧
          (g1.ensureMinimumHandSize cur).deck.cards.length > 0)) := by
  have ht : g.ToppedUp := ((Cfg.Inv.run n pick acts).sound g hg).topped
  refine ⟨ht, ?_, ?_⟩
  · intro cur a g1 b _ hp
    exact ht.of_moves (g.loopPass_moves cur a g1 b hp) (g.loopPass_topped cur a g1 b hp)
  · intro g1 cur
    obtain ⟨ha, hb⟩ := g1.ensureMinimumHandSize_spec cur
    refine ⟨ha, hb, ?_⟩
    omega

set_option maxRecDepth 100000 in
/-- C4 at a concrete input: the three-player game dealt from the unshuffled deck, at the
start of the game loop. -/
theorem topUp_invariant_witness :
    2 ≤ 3 ∧ 3 ≤ 5 ∧
    ((Cfg.start 3 pickLast).run []).game? =
      some { Game.new 3 pickLast with currentPlayerIndex := some 1 } ∧
    ((∀ r ∈ (Game.new 3 pickLast).players,
        3 ≤ ((Game.new 3 pickLast).heap r).hand.length ∨ (Game.new 3 pickLast).deck.cards = []) ∧
    (∀ (cur : Nat) (a : Action) (g1 : Game) (b : Bool),
      ((Cfg.start 3 pickLast).run []).loopHead? =
        some ({ Game.new 3 pickLast with currentPlayerIndex := some 1 }, cur) →
      Game.loopPass { Game.new 3 pickLast with currentPlayerIndex := some 1 } cur a =
        .completed g1 b →
      ∀ r ∈ g1.players, 3 ≤ (g1.heap r).hand.length ∨ g1.deck.cards = []) ∧
    (∀ (g1 : Game) (cur : Nat),
      ((g1.ensureMinimumHandSize cur).heap cur).hand.length =
        (g1.heap cur).hand.length + min (3 - (g1.heap cur).hand.length) g1.deck.cards.length ∧
      (g1.ensureMinimumHandSize cur).deck.cards.length =
        g1.deck.cards.length - min (3 - (g1.heap cur).hand.length) g1.deck.cards.length ∧
      ¬ (((g1.ensureMinimumHandSize cur).heap cur).hand.length < 3 ∧
          (g1.ensureMinimumHandSize cur).deck.cards.length > 0))) :=
  ⟨by decide, by decide, rfl,
    topUp_invariant 3 pickLast [] { Game.new 3 pickLast with currentPlayerIndex := some 1 }
      (by decide) (by decide) rfl⟩

theorem Game.not_validIndex_of (g : Game) (i : Nat) (h : g.currentPlayerIndex = some i)
    (hl : g.players.length ≤ i) : ¬ g.ValidIndex := by
  rintro ⟨j, hj, hlt⟩
  rw [h] at hj
  simp only [Option.some.injEq] at hj
  omega

/-- C5, as the code has it: in a game of 2 to 5 players, at every point the script reaches
before the game loop is left (between two calls of `playTurn` that returned without
reporting the end of the game, and between two passes of the loop inside a call),
`currentPlayerIndex` is a valid index into the active list provided that list is not
empty. -/
theorem currentPlayerIndex_valid_while_running (n : Nat) (pick : Nat → Nat)
    (acts : List Action) (g : Game) (_h2 : 2 ≤ n) (_h5 : n ≤ 5)
    (hg : ((Cfg.start n pick).run acts).running? = some g) (hne : g.players ≠ []) :
    ∃ i, g.currentPlayerIndex = some i ∧ i < g.players.length := by
  rcases (Cfg.Inv.run n pick acts).indexOk g hg with h | h
  · exact absurd h hne
  · exact h

set_option maxRecDepth 100000 in
/-- C5 (as the code has it) at a concrete input: the three-player game dealt from the
unshuffled deck, at the start of the game loop, where player 1 is to move. -/
theorem currentPlayerIndex_valid_while_running_witness :
    2 ≤ 3 ∧ 3 ≤ 5 ∧
    ((Cfg.start 3 pickLast).run []).running? =
      some { Game.new 3 pickLast with currentPlayerIndex := some 1 } ∧
    (Game.new 3 pickLast).players ≠ [] ∧
    ∃ i, (some 1 : Option Nat) = some i ∧ i < (Game.new 3 pickLast).players.length :=
  ⟨by decide, by decide, rfl, by decide,
    currentPlayerIndex_valid_while_running 3 pickLast []
      { Game.new 3 pickLast with currentPlayerIndex := some 1 } (by decide) (by decide) rfl
      (by decide)⟩

/-! ### The three outcomes of an action on the pile -/

/-- C11: at an index in range whose hand entry is a card that is valid against the pile top
and is not a 10, `handlePlayCard` returns `true`; the card is the new pile top and is
appended to the accumulated pile, the hand is the old hand without position `i` (the other
entries in their order), and the face-down set, the deck, every other player object, the
active list, the index and the table cards are as before. -/
theorem handlePlayCard_valid_card (g : Game) (cur i : Nat) (c : Card)
    (hget : (g.heap cur).hand[i]? = some (some c)) (hv : g.isValidPlay c = true)
    (h10 : c.value ≠ .r10) :
    ∃ g1, g.handlePlayCard cur (some (i : Int)) = some (g1, true) ∧
      g1.lastPlayedCard = some c ∧
      g1.playedCardsDeck = g.playedCardsDeck ++ [c] ∧
      (g1.heap cur).hand = (g.heap cur).hand.eraseIdx i ∧
      (g1.heap cur).hand = (g.heap cur).hand.take i ++ (g.heap cur).hand.drop (i + 1) ∧
      (g1.heap cur).faceDownCards = (g.heap cur).faceDownCards ∧
      g1.deck = g.deck ∧
      (∀ r, r ≠ cur → g1.heap r = g.heap r) ∧
      g1.players = g.players ∧ g1.currentPlayerIndex = g.currentPlayerIndex ∧
      g1.tableCards = g.tableCards := by
  rw [g.handlePlayCard_inRange cur i c hget]
  simp only [hv, h10, if_true, if_false]
  refine ⟨_, rfl, rfl, rfl, ?_, ?_, ?_, rfl, ?_, rfl, rfl, rfl⟩
  · simp
  · simp [List.eraseIdx_eq_take_drop_succ]
  · simp
  · intro r hr
    simp [hr]

set_option maxRecDepth 100000 in
/-- C11 at a concrete input: in the new three-player game dealt from the unshuffled deck,
nothing has been played yet and player 1 holds the 7 of spades at index 0. -/
theorem handlePlayCard_valid_card_witness :
    ((Game.new 3 pickLast).heap 1).hand[0]? = some (some ⟨.Spades, .r7⟩) ∧
    (Game.new 3 pickLast).isValidPlay ⟨.Spades, .r7⟩ = true ∧
    (⟨.Spades, .r7⟩ : Card).value ≠ .r10 ∧
    ∃ g1, (Game.new 3 pickLast).handlePlayCard 1 (some ((0 : Nat) : Int)) = some (g1, true) ∧
      g1.lastPlayedCard = some ⟨.Spades, .r7⟩ ∧
      g1.playedCardsDeck = (Game.new 3 pickLast).playedCardsDeck ++ [⟨.Spades, .r7⟩] ∧
      (g1.heap 1).hand = ((Game.new 3 pickLast).heap 1).hand.eraseIdx 0 ∧
      (g1.heap 1).hand =
        ((Game.new 3 pickLast).heap 1).hand.take 0 ++
          ((Game.new 3 pickLast).heap 1).hand.drop (0 + 1) ∧
      (g1.heap 1).faceDownCards = ((Game.new 3 pickLast).heap 1).faceDownCards ∧
      g1.deck = (Game.new 3 pickLast).deck ∧
      (∀ r, r ≠ 1 → g1.heap r = (Game.new 3 pickLast).heap r) ∧
      g1.players = (Game.new 3 pickLast).players ∧
      g1.currentPlayerIndex = (Game.new 3 pickLast).currentPlayerIndex ∧
      g1.tableCards = (Game.new 3 pickLast).tableCards :=
  ⟨by decide, by decide, by decide,
    handlePlayCard_valid_card (Game.new 3 pickLast) 1 0 ⟨.Spades, .r7⟩
      (by decide) (by decide) (by decide)⟩

/-- C12: at an index in range whose hand entry is a card that is not valid against the pile
top, `handlePlayCard` returns `false` and the state it leaves is the state before: the card
is back at index `i`, so the hand is the same list, and pile top, accumulated pile, deck,
the other player objects and everything else are untouched. -/
theorem handlePlayCard_rejected_card (g : Game) (cur i : Nat) (c : Card)
    (hget : (g.heap cur).hand[i]? = some (some c)) (hv : g.isValidPlay c = false) :
    g.handlePlayCard cur (some (i : Int)) = some (g, false) ∧
    (((g.heap cur).playCard (i : Int)).2.hand.insertIdx i (some c) = (g.heap cur).hand) := by
  rw [g.handlePlayCard_inRange cur i c hget]
  have hk : i < (g.heap cur).hand.length := by
    rcases Nat.lt_or_ge i (g.heap cur).hand.length with h1 | h1
    · exact h1
    · rw [List.getElem?_eq_none h1] at hget; simp at hget
  refine ⟨by simp [hv], ?_⟩
  rw [Player.playCard_natCast _ _ hk]
  exact insertIdx_eraseIdx_self _ _ _ hget

set_option maxRecDepth 100000 in
/-- C12 at a concrete input: the pile top is the 7 of spades and player 2 holds the ace of
clubs at index 0, which is too high on a 7. -/
theorem handlePlayCard_rejected_card_witness :
    (stateAfterSeven.heap 2).hand[0]? = some (some ⟨.Clubs, .A⟩) ∧
    stateAfterSeven.isValidPlay ⟨.Clubs, .A⟩ = false ∧
    (stateAfterSeven.handlePlayCard 2 (some ((0 : Nat) : Int)) = some (stateAfterSeven, false) ∧
    (((stateAfterSeven.heap 2).playCard ((0 : Nat) : Int)).2.hand.insertIdx 0
        (some ⟨.Clubs, .A⟩) = (stateAfterSeven.heap 2).hand)) :=
  ⟨by decide!, by decide!,
    handlePlayCard_rejected_card stateAfterSeven 2 0 ⟨.Clubs, .A⟩ (by decide!) (by decide!)⟩

/-- C13: in every state `handlePickup` returns `true`; the hand of the player is the old
hand followed by the cards of the accumulated pile in their order, the accumulated pile and
the pile top are both empty afterwards, and the face-down set, the deck, every other player
object, the active list, the index and the table cards are as before. -/
theorem handlePickup_takes_the_pile (g : Game) (cur : Nat) :
    (g.handlePickup cur).2 = true ∧
    ((g.handlePickup cur).1.heap cur).hand = (g.heap cur).hand ++ g.playedCardsDeck.map some ∧
    ((g.handlePickup cur).1.heap cur).faceDownCards = (g.heap cur).faceDownCards ∧
    (g.handlePickup cur).1.playedCardsDeck = [] ∧
    (g.handlePickup cur).1.lastPlayedCard = none ∧
    (g.handlePickup cur).1.deck = g.deck ∧
    (∀ r, r ≠ cur → (g.handlePickup cur).1.heap r = g.heap r) ∧
    (g.handlePickup cur).1.players = g.players ∧
    (g.handlePickup cur).1.currentPlayerIndex = g.currentPlayerIndex ∧
    (g.handlePickup cur).1.tableCards = g.tableCards := by
  refine ⟨rfl, ?_, ?_, rfl, rfl, rfl, ?_, rfl, rfl, rfl⟩
  · simp [Game.handlePickup]
  · simp [Game.handlePickup]
  · intro r hr
    simp [Game.handlePickup, hr]

/-! ### `deal`, `drawCard`, `playCard` on their own -/

theorem Deck.deal_append (cards : List Card) (c : Card) :
    Deck.deal ⟨cards ++ [c]⟩ = (some c, ⟨cards⟩) := by
  simp [Deck.deal]

/-- C15, as the code has it: `deal` on a deck whose last card is `c` returns `c` and leaves
the cards before it, in their order; on an empty deck it returns `undefined` (no error is
raised) and the deck stays empty. `drawCard` pushes whatever `deal` returned on the hand
and returns it: the dealt card from a non-empty deck, `undefined` from an empty one. -/
theorem deal_and_drawCard (p : Player) (cards : List Card) (c : Card) :
    Deck.deal ⟨cards ++ [c]⟩ = (some c, ⟨cards⟩) ∧
    Deck.deal ⟨[]⟩ = (none, ⟨[]⟩) ∧
    p.drawCard ⟨cards ++ [c]⟩ = (some c, { p with hand := p.hand ++ [some c] }, ⟨cards⟩) ∧
    p.drawCard ⟨[]⟩ = (none, { p with hand := p.hand ++ [none] }, ⟨[]⟩) := by
  refine ⟨Deck.deal_append cards c, rfl, ?_, rfl⟩
  simp [Player.drawCard, Deck.deal_append]

/-- C15 as stated fails on the empty deck: `deal` returns a value, `undefined`, and
`drawCard` called by a player with an empty hand leaves a hand of one entry, `undefined`. -/
theorem deal_on_empty_deck_returns_undefined :
    Deck.deal ⟨[]⟩ = (none, ⟨[]⟩) ∧
    (Player.drawCard ⟨0, [], []⟩ ⟨[]⟩).1 = none ∧
    (Player.drawCard ⟨0, [], []⟩ ⟨[]⟩).2.1.hand = [none] ∧
    (Player.drawCard ⟨0, [], []⟩ ⟨[]⟩).2.1.hand.length ≠ 0 := by
  decide

/-- C16, as the code has it: `playCard` is `splice(index, 1)[0]`. At an index in range it
removes the entry at that position and returns it, the other entries keeping their order.
At an index at or beyond the end it removes nothing and returns `undefined`; no error is
raised. A negative index counts from the end: `-(k+1)` removes and returns the entry that
has `k` entries after it, and an index at or below `-length` removes and returns the
first entry. -/
theorem playCard_is_splice (id : Nat) (fd pre post : List Slot) (c : Slot) (p : Player)
    (k : Nat) :
    Player.playCard ⟨id, pre ++ c :: post, fd⟩ (pre.length : Int) =
      (c, ⟨id, pre ++ post, fd⟩) ∧
    p.playCard ((p.hand.length + k : Nat) : Int) = (none, p) ∧
    Player.playCard ⟨id, pre ++ c :: post, fd⟩ (-((post.length + 1 : Nat) : Int)) =
      (c, ⟨id, pre ++ post, fd⟩) ∧
    p.playCard (-((p.hand.length + k : Nat) : Int)) =
      ((p.hand[0]?).join, { p with hand := p.hand.eraseIdx 0 }) := by
  have herase : (pre ++ c :: post).eraseIdx pre.length = pre ++ post := by
    rw [List.eraseIdx_append_of_length_le (le_refl _)]
    simp
  have hget : (pre ++ c :: post)[pre.length]? = some c := by
    rw [List.getElem?_append_right (le_refl _)]
    simp
  refine ⟨?_, ?_, ?_, ?_⟩
  · have hs : spliceStart (pre ++ c :: post).length (pre.length : Int) = pre.length :=
      spliceStart_natCast _ _ (by simp)
    simp only [Player.playCard, hs, herase, hget]
    rfl
  · have hs : spliceStart p.hand.length ((p.hand.length + k : Nat) : Int) = p.hand.length := by
      unfold spliceStart
      have : ¬ (((p.hand.length + k : Nat) : Int) < 0) := by omega
      simp only [this, if_false, Int.toNat_ofNat]
      omega
    simp only [Player.playCard, hs]
    rw [List.getElem?_eq_none (le_refl _), List.eraseIdx_of_length_le (le_refl _)]
    rfl
  · have hs : spliceStart (pre ++ c :: post).length (-((post.length + 1 : Nat) : Int)) =
        pre.length := by
      unfold spliceStart
      have : (-((post.length + 1 : Nat) : Int)) < 0 := by omega
      simp only [this, if_true, List.length_append, List.length_cons]
      omega
    simp only [Player.playCard, hs, herase, hget]
    rfl
  · have hs : spliceStart p.hand.length (-((p.hand.length + k : Nat) : Int)) = 0 := by
      unfold spliceStart
      split_ifs <;> omega
    simp only [Player.playCard, hs]

/-- C16 as stated fails outside the range: on the hand `[3♠, 5♠]` the index `-1` removes and
returns the 5 of spades, and the index `2` returns `undefined` where an error is claimed. -/
theorem playCard_outside_range_does_not_fail :
    Player.playCard ⟨0, [some ⟨.Spades, .r3⟩, some ⟨.Spades, .r5⟩], []⟩ (-1) =
      (some ⟨.Spades, .r5⟩, ⟨0, [some ⟨.Spades, .r3⟩], []⟩) ∧
    Player.playCard ⟨0, [some ⟨.Spades, .r3⟩, some ⟨.Spades, .r5⟩], []⟩ 2 =
      (none, ⟨0, [some ⟨.Spades, .r3⟩, some ⟨.Spades, .r5⟩], []⟩) := by
  decide

/-! ### The deck -/

/-- C18: the deck `createDeck` makes has 52 cards, holds every card of the 4 suits × 13 ranks
and holds none twice (each exactly once); and whatever the random draws, `shuffle` (a
function defined by recursion on its loop variable, so that it ends) leaves a list with the
same cards in the same numbers and of the same length. -/
theorem createDeck_and_shuffle (pick : Nat → Nat) (d : Deck) :
    Deck.createDeck.cards.length = 52 ∧
    Deck.createDeck.cards.Nodup ∧
    (∀ c : Card, c ∈ Deck.createDeck.cards) ∧
    (∀ c : Card, Deck.createDeck.cards.count c = 1) ∧
    List.Perm (d.shuffle pick).cards d.cards ∧
    (d.shuffle pick).cards.length = d.cards.length ∧
    (∀ c : Card, (d.shuffle pick).cards.count c = d.cards.count c) := by
  have hnd : Deck.createDeck.cards.Nodup := by decide
  have hmem : ∀ c : Card, c ∈ Deck.createDeck.cards := by
    rintro ⟨s, v⟩
    cases s <;> cases v <;> decide
  have hp := Deck.shuffle_perm pick d
  exact ⟨rfl, hnd, hmem, fun c => List.count_eq_one_of_mem hnd (hmem c), hp, hp.length_eq,
    fun c => hp.count_eq c⟩

/-! ### At the head of the loop of `playTurn` -/

theorem Game.ensureMinimumHandSize_of_topped (g : Game) (cur : Nat) (h : g.CurTopped cur) :
    g.ensureMinimumHandSize cur = g := by
  unfold Game.ensureMinimumHandSize
  cases hf : g.deck.cards.length with
  | zero => rfl
  | succ k =>
    unfold Game.ensureLoop
    have hne : g.deck.cards ≠ [] := by
      intro h0; rw [h0] at hf; simp at hf
    have h3 : 3 ≤ (g.heap cur).hand.length := by
      rcases h with h | h
      · exact h
      · exact absurd h hne
    have : ¬ ((g.obj cur).hand.length < 3 ∧ g.deck.cards.length > 0) := by
      simp only [Game.obj_eq]
      omega
    rw [if_neg this]

theorem Cfg.actingTopped_step (c : Cfg) (a : Action) : (c.step a).ActingTopped := by
  have hpass : ∀ g cur, (Cfg.pass g cur a).ActingTopped := by
    intro g cur
    unfold Cfg.pass
    split
    · trivial
    · trivial
    · rename_i g1 hp
      exact g.loopPass_topped cur a g1 false hp
    · split_ifs <;> trivial
  cases c with
  | idle g =>
    unfold Cfg.step
    dsimp only
    split_ifs
    · trivial
    · split
      · trivial
      · exact hpass g _
  | acting g cur => exact hpass g cur
  | over g => trivial
  | crashed => trivial

theorem Cfg.actingTopped_run (n : Nat) (pick : Nat → Nat) (acts : List Action) :
    ((Cfg.start n pick).run acts).ActingTopped := by
  induction acts using List.reverseRecOn with
  | nil =>
    unfold Cfg.start Cfg.run
    simp only [List.foldl_nil]
    split <;> trivial
  | append_singleton rest a _ =>
    have : (Cfg.start n pick).run (rest ++ [a]) = ((Cfg.start n pick).run rest).step a := by
      simp [Cfg.run, List.foldl_append]
    rw [this]
    exact Cfg.actingTopped_step _ a

theorem Game.own_le_bag (n : Nat) (g : Game) (r : Nat) (hr : r < n) :
    (g.heap r).own ≤ g.bag n := by
  rw [g.bag_split n r hr]
  unfold Game.localBag
  calc (g.heap r).own ≤ (↑(g.deck.cards.map some) + ↑(g.playedCardsDeck.map some)) +
        (g.heap r).own := Multiset.le_add_left _ _
    _ ≤ _ := le_trans (Multiset.le_add_right _ _) (Multiset.le_add_right _ _)

theorem Game.tableCards_le_bag (n : Nat) (g : Game) : (↑g.tableCards : Multiset Slot) ≤ g.bag n := by
  unfold Game.bag
  exact le_trans (Multiset.le_add_left _ _) (Multiset.le_add_right _ _)

theorem not_undefined_of_le_createDeck {m : Multiset Slot}
    (h : m ≤ ↑(Deck.createDeck.cards.map some)) : none ∉ m := by
  intro hn
  have := Multiset.mem_of_le h hn
  simp at this

/-- What holds at the head of the loop of `playTurn` in a game of at most 8 players. -/
theorem Cfg.loopHead_facts (n : Nat) (pick : Nat → Nat) (acts : List Action) (g : Game)
    (cur : Nat) (hn : 6 * n + 3 ≤ 52)
    (hh : ((Cfg.start n pick).run acts).loopHead? = some (g, cur)) :
    g.Sound n ↑(Deck.createDeck.cards.map some) ∧ cur < n ∧ g.CurTopped cur ∧
      (g.heap cur).handPrintable = true := by
  have hinv := Cfg.Inv.run n pick acts
  rw [Game.new_bag n pick hn] at hinv
  have htop := Cfg.actingTopped_run n pick acts
  have key : g.Sound n ↑(Deck.createDeck.cards.map some) ∧ cur < n ∧ g.CurTopped cur := by
    cases hc : (Cfg.start n pick).run acts with
    | idle g1 =>
      rw [hc] at hh hinv
      simp only [Cfg.loopHead?] at hh
      split_ifs at hh
      cases hcur : g1.currentPlayer with
      | none => rw [hcur] at hh; simp at hh
      | some x =>
        rw [hcur] at hh
        simp only [Option.map_some', Option.some.injEq, Prod.mk.injEq] at hh
        obtain ⟨rfl, rfl⟩ := hh
        have hmem : x ∈ g1.players := by
          unfold Game.currentPlayer at hcur
          split at hcur
          · exact absurd hcur (by simp)
          · exact List.getElem?_mem hcur
        exact ⟨hinv.1, List.mem_range.mp (hinv.1.refs.subset hmem), hinv.1.topped x hmem⟩
    | acting g1 cur1 =>
      rw [hc] at hh hinv htop
      simp only [Cfg.loopHead?, Option.some.injEq, Prod.mk.injEq] at hh
      obtain ⟨rfl, rfl⟩ := hh
      exact ⟨hinv.1, hinv.2.2, htop⟩
    | over g1 => rw [hc] at hh; simp [Cfg.loopHead?] at hh
    | crashed => rw [hc] at hh; simp [Cfg.loopHead?] at hh
  refine ⟨key.1, key.2.1, key.2.2, ?_⟩
  have hno : none ∉ (g.heap cur).own :=
    not_undefined_of_le_createDeck (le_trans (g.own_le_bag n cur key.2.1) key.1.bag)
  unfold Player.handPrintable
  rw [List.all_eq_true]
  intro s hs
  cases s with
  | none =>
    exfalso
    apply hno
    unfold Player.own
    exact Multiset.mem_add.mpr (Or.inl (Multiset.mem_coe.mpr hs))
  | some c => rfl

theorem Cfg.step_of_loopHead (c : Cfg) (g : Game) (cur : Nat) (a : Action)
    (hh : c.loopHead? = some (g, cur)) : c.step a = Cfg.pass g cur a := by
  cases c with
  | idle g1 =>
    simp only [Cfg.loopHead?] at hh
    split_ifs at hh with hover
    cases hcur : g1.currentPlayer with
    | none => rw [hcur] at hh; simp at hh
    | some x =>
      rw [hcur] at hh
      simp only [Option.map_some', Option.some.injEq, Prod.mk.injEq] at hh
      obtain ⟨rfl, rfl⟩ := hh
      simp only [Cfg.step, hover, hcur]
      rfl
  | acting g1 cur1 =>
    simp only [Cfg.loopHead?, Option.some.injEq, Prod.mk.injEq] at hh
    obtain ⟨rfl, rfl⟩ := hh
    rfl
  | over g1 => simp [Cfg.loopHead?] at hh
  | crashed => simp [Cfg.loopHead?] at hh

theorem Game.handleDraw_empty_deck (g : Game) (cur : Nat) (playDrawn : Bool)
    (h : g.deck.cards = []) : g.handleDraw cur playDrawn = some (g, false) := by
  unfold Game.handleDraw
  simp [h]

theorem Game.loopPass_rejected (g : Game) (cur : Nat) (a : Action)
    (hprint : (g.heap cur).handPrintable = true) (htop : g.CurTopped cur)
    (hr : g.Rejected cur a) : g.loopPass cur a = .completed g false := by
  have hens := g.ensureMinimumHandSize_of_topped cur htop
  unfold Game.loopPass
  rw [Game.obj_eq, if_pos hprint]
  cases a with
  | draw playDrawn =>
    simp only [Game.Rejected] at hr
    simp only [g.handleDraw_empty_deck cur playDrawn hr, hens]
  | pickup => exact absurd hr (by simp [Game.Rejected])
  | cancel => exact absurd hr (by simp [Game.Rejected])
  | play cardIndex =>
    cases cardIndex with
    | none => simp only [Game.handlePlayCard, hens]
    | some i =>
      simp only [Game.Rejected] at hr
      simp only [g.handlePlayCard_outOfRange cur i hr, hens]
  | invalid => simp only [hens]

/-- C14: in a game of 2 to 5 players, at every head of the loop of `playTurn` that the
script reaches, an answer that is no action, a number that is `NaN` or no index into the
hand, or `'draw'` on an empty deck makes a pass of the loop (the call of
`ensureMinimumHandSize` included) that leaves the whole game state as it was and does not
end the turn: the script is at the head of the loop again, in the same state, with the
same current player. -/
theorem rejected_action_changes_nothing (n : Nat) (pick : Nat → Nat) (acts : List Action)
    (g : Game) (cur : Nat) (a : Action) (h2 : 2 ≤ n) (h5 : n ≤ 5)
    (hh : ((Cfg.start n pick).run acts).loopHead? = some (g, cur))
    (hr : g.Rejected cur a) :
    g.loopPass cur a = .completed g false ∧
    ((Cfg.start n pick).run acts).step a = .acting g cur := by
  obtain ⟨-, -, htop, hprint⟩ := Cfg.loopHead_facts n pick acts g cur (by omega) hh
  have hp := g.loopPass_rejected cur a hprint htop hr
  refine ⟨hp, ?_⟩
  rw [Cfg.step_of_loopHead _ g cur a hh]
  unfold Cfg.pass
  rw [hp]

set_option maxRecDepth 100000 in
/-- C14 at a concrete input: at the start of the three-player game dealt from the unshuffled
deck player 1 is to move with three cards, and answers `7`. -/
theorem rejected_action_changes_nothing_witness :
    2 ≤ 3 ∧ 3 ≤ 5 ∧
    ((Cfg.start 3 pickLast).run []).loopHead? =
      some ({ Game.new 3 pickLast with currentPlayerIndex := some 1 }, 1) ∧
    Game.Rejected { Game.new 3 pickLast with currentPlayerIndex := some 1 } 1 (.play (some 7)) ∧
    (Game.loopPass { Game.new 3 pickLast with currentPlayerIndex := some 1 } 1 (.play (some 7)) =
        .completed { Game.new 3 pickLast with currentPlayerIndex := some 1 } false ∧
      ((Cfg.start 3 pickLast).run []).step (.play (some 7)) =
        .acting { Game.new 3 pickLast with currentPlayerIndex := some 1 } 1) :=
  ⟨by decide, by decide, rfl, by simp only [Game.Rejected]; decide,
    rejected_action_changes_nothing 3 pickLast []
      { Game.new 3 pickLast with currentPlayerIndex := some 1 } 1 (.play (some 7))
      (by decide) (by decide) rfl (by simp only [Game.Rejected]; decide)⟩

/-! ### Undefined cards and eliminations -/

/-- C19: in a game of 1 to 5 players no `undefined` is ever held by a hand, a face-down set
or the table cards, at any point the script reaches: every `deal` was made on a non-empty
deck. The deal of `dealInitialCards` takes its `6n + 3` cards from the 52 and leaves each
player 3 hand entries and 3 face-down entries and the table 3 entries; and on an empty deck
`handleDraw` and `ensureMinimumHandSize` leave the state as it is, without calling `deal`. -/
theorem no_undefined_card_dealt (n : Nat) (pick : Nat → Nat) (acts : List Action) (g : Game)
    (h1 : 1 ≤ n) (h5 : n ≤ 5) (hg : ((Cfg.start n pick).run acts).game? = some g) :
    (∀ r, r < n → none ∉ (g.heap r).hand ∧ none ∉ (g.heap r).faceDownCards) ∧
    none ∉ g.tableCards ∧
    (∀ r, r < n → ((Game.new n pick).heap r).hand.length = 3 ∧
      ((Game.new n pick).heap r).faceDownCards.length = 3 ∧
      none ∉ ((Game.new n pick).heap r).hand ∧
      none ∉ ((Game.new n pick).heap r).faceDownCards) ∧
    ((Game.new n pick).tableCards.length = 3 ∧ none ∉ (Game.new n pick).tableCards) ∧
    (Game.new n pick).players = List.range n ∧
    (Game.new n pick).deck.cards.length + (6 * n + 3) = 52 ∧
    (∀ (g1 : Game) (cur : Nat) (playDrawn : Bool), g1.deck.cards = [] →
      g1.handleDraw cur playDrawn = some (g1, false)) ∧
    (∀ (g1 : Game) (cur : Nat), g1.deck.cards = [] → g1.ensureMinimumHandSize cur = g1) := by
  have hfull : (Game.new n pick).bag n = ↑(Deck.createDeck.cards.map some) :=
    Game.new_bag n pick (by omega)
  have hown : ∀ (g0 : Game), g0.bag n ≤ ↑(Deck.createDeck.cards.map some) → ∀ r, r < n →
      none ∉ (g0.heap r).hand ∧ none ∉ (g0.heap r).faceDownCards := by
    intro g0 hb r hr
    have hno : none ∉ (g0.heap r).own :=
      not_undefined_of_le_createDeck (le_trans (g0.own_le_bag n r hr) hb)
    unfold Player.own at hno
    exact ⟨fun h => hno (Multiset.mem_add.mpr (Or.inl (Multiset.mem_coe.mpr h))),
      fun h => hno (Multiset.mem_add.mpr (Or.inr (Multiset.mem_coe.mpr h)))⟩
  have htab : ∀ (g0 : Game), g0.bag n ≤ ↑(Deck.createDeck.cards.map some) →
      none ∉ g0.tableCards := by
    intro g0 hb h
    exact not_undefined_of_le_createDeck (le_trans (g0.tableCards_le_bag n) hb)
      (Multiset.mem_coe.mpr h)
  have hs : g.bag n ≤ ↑(Deck.createDeck.cards.map some) :=
    hfull ▸ ((Cfg.Inv.run n pick acts).sound g hg).bag
  refine ⟨hown g hs, htab g hs, ?_, ⟨Game.new_tableCards_length n pick, htab _ (le_of_eq hfull)⟩,
    Game.new_players n pick, ?_, ?_, ?_⟩
  · intro r hr
    exact ⟨(Game.new_hands n pick r hr).1, (Game.new_hands n pick r hr).2,
      (hown _ (le_of_eq hfull) r hr).1, (hown _ (le_of_eq hfull) r hr).2⟩
  · rw [Game.new_deck_length]
    omega
  · intro g1 cur playDrawn h0
    exact g1.handleDraw_empty_deck cur playDrawn h0
  · intro g1 cur h0
    exact g1.ensureMinimumHandSize_of_topped cur (Or.inr h0)

set_option maxRecDepth 100000 in
/-- C19 at a concrete input: the three-player game dealt from the unshuffled deck, at the
start of the game loop. -/
theorem no_undefined_card_dealt_witness :
    1 ≤ 3 ∧ 3 ≤ 5 ∧
    ((Cfg.start 3 pickLast).run []).game? =
      some { Game.new 3 pickLast with currentPlayerIndex := some 1 } ∧
    ((∀ r, r < 3 → none ∉ ((Game.new 3 pickLast).heap r).hand ∧
        none ∉ ((Game.new 3 pickLast).heap r).faceDownCards) ∧
    none ∉ (Game.new 3 pickLast).tableCards ∧
    (∀ r, r < 3 → ((Game.new 3 pickLast).heap r).hand.length = 3 ∧
      ((Game.new 3 pickLast).heap r).faceDownCards.length = 3 ∧
      none ∉ ((Game.new 3 pickLast).heap r).hand ∧
      none ∉ ((Game.new 3 pickLast).heap r).faceDownCards) ∧
    ((Game.new 3 pickLast).tableCards.length = 3 ∧ none ∉ (Game.new 3 pickLast).tableCards) ∧
    (Game.new 3 pickLast).players = List.range 3 ∧
    (Game.new 3 pickLast).deck.cards.length + (6 * 3 + 3) = 52 ∧
    (∀ (g1 : Game) (cur : Nat) (playDrawn : Bool), g1.deck.cards = [] →
      g1.handleDraw cur playDrawn = some (g1, false)) ∧
    (∀ (g1 : Game) (cur : Nat), g1.deck.cards = [] → g1.ensureMinimumHandSize cur = g1)) :=
  ⟨by decide, by decide, rfl,
    no_undefined_card_dealt 3 pickLast [] { Game.new 3 pickLast with currentPlayerIndex := some 1 }
      (by decide) (by decide) rfl⟩

theorem Game.checkPlayerWin_removal (g : Game) (cur : Nat)
    (hne : (g.checkPlayerWin cur).1.players ≠ g.players) : (g.heap cur).hand = [] := by
  unfold Game.checkPlayerWin at hne
  dsimp only at hne
  split_ifs at hne with h0
  · exact List.eq_nil_of_length_eq_zero h0
  · exact List.eq_nil_of_length_eq_zero h0
  · exact absurd rfl hne

theorem Game.handlePlayCard_removal (g : Game) (cur : Nat) (cardIndex : Option Int)
    (r : Game × Bool) (h : g.handlePlayCard cur cardIndex = some r)
    (hne : r.1.players ≠ g.players) :
    (g.heap cur).hand.length = 1 ∧ r.1.deck = g.deck := by
  cases cardIndex with
  | none =>
    simp only [Game.handlePlayCard, Option.some.injEq] at h
    subst h
    exact absurd rfl hne
  | some i =>
    by_cases hr : 0 ≤ i ∧ i < ((g.heap cur).hand.length : Int)
    · obtain ⟨h0, hlt⟩ := hr
      lift i to ℕ using h0
      have hk : i < (g.heap cur).hand.length := by exact_mod_cast hlt
      have hget : (g.heap cur).hand[i]? = some (g.heap cur).hand[i] :=
        List.getElem?_eq_getElem hk
      cases hs : (g.heap cur).hand[i] with
      | none =>
        rw [hs] at hget
        rw [g.handlePlayCard_undefined cur i hget] at h
        exact absurd h (by simp)
      | some c =>
        rw [hs] at hget
        rw [g.handlePlayCard_inRange cur i c hget] at h
        split_ifs at h with hv h10 hz
        · simp only [Option.some.injEq] at h
          subst h
          refine ⟨?_, by rw [Game.checkPlayerWin_deck]; rfl⟩
          rw [List.length_eraseIdx, if_pos hk] at hz
          omega
        · simp only [Option.some.injEq] at h
          subst h
          exact absurd rfl hne
        · simp only [Option.some.injEq] at h
          subst h
          exact absurd rfl hne
        · simp only [Option.some.injEq] at h
          subst h
          exact absurd rfl hne
    · rw [g.handlePlayCard_outOfRange cur i hr] at h
      simp only [Option.some.injEq] at h
      subst h
      exact absurd rfl hne

theorem Game.loopPass_removal (g : Game) (cur : Nat) (a : Action) (g1 : Game) (b : Bool)
    (h : g.loopPass cur a = .completed g1 b) (htop : g.CurTopped cur)
    (hne : g1.players ≠ g.players) : g.deck.cards = [] ∧ g1.deck.cards = [] := by
  unfold Game.loopPass at h
  split_ifs at h
  cases a with
  | draw playDrawn =>
    dsimp only at h
    split at h
    · exact absurd h (by simp)
    · rename_i r hr
      simp only [PassResult.completed.injEq] at h
      exfalso
      apply hne
      rw [← h.1, Game.ensureMinimumHandSize_players]
      exact (g.handleDraw_index cur playDrawn r hr).1
  | pickup =>
    simp only [PassResult.completed.injEq] at h
    exfalso
    apply hne
    rw [← h.1, Game.ensureMinimumHandSize_players]
    rfl
  | cancel => exact absurd h (by simp)
  | play cardIndex =>
    dsimp only at h
    split at h
    · exact absurd h (by simp)
    · rename_i r hr
      simp only [PassResult.completed.injEq] at h
      have hne' : r.1.players ≠ g.players := by
        intro hp
        apply hne
        rw [← h.1, Game.ensureMinimumHandSize_players, hp]
      obtain ⟨hlen, hdeck⟩ := g.handlePlayCard_removal cur cardIndex r hr hne'
      have hg0 : g.deck.cards = [] := by
        rcases htop with h3 | h0
        · omega
        · exact h0
      refine ⟨hg0, ?_⟩
      have hr0 : r.1.deck.cards = [] := by rw [hdeck, hg0]
      rw [← h.1, r.1.ensureMinimumHandSize_of_topped cur (Or.inr hr0), hr0]
  | invalid =>
    simp only [PassResult.completed.injEq] at h
    exfalso
    apply hne
    rw [← h.1, Game.ensureMinimumHandSize_players]

theorem Game.endTurn_removal (g : Game) (cur : Nat)
    (hne : (g.endTurn cur).1.players ≠ g.players) : (g.heap cur).hand = [] := by
  apply g.checkPlayerWin_removal cur
  intro hp
  apply hne
  unfold Game.endTurn
  dsimp only
  split_ifs
  · exact hp
  · exact hp

/-- C20: in a game of 2 to 5 players, take any pass of the loop of `playTurn` that the
script makes. `checkPlayerWin` is the only operation that changes the active list, and it
changes it only when the hand it tests is empty. If it does so inside the pass (a 10 that
emptied the hand), the deck was empty when the pass began and is empty when it ends; and
if the `checkPlayerWin` that follows the loop does so, the deck is empty then. -/
theorem no_elimination_while_deck_has_cards (n : Nat) (pick : Nat → Nat)
    (acts : List Action) (g : Game) (cur : Nat) (a : Action) (g1 : Game) (b : Bool)
    (h2 : 2 ≤ n) (h5 : n ≤ 5)
    (hh : ((Cfg.start n pick).run acts).loopHead? = some (g, cur))
    (hp : g.loopPass cur a = .completed g1 b) :
    (g1.players ≠ g.players → g.deck.cards = [] ∧ g1.deck.cards = []) ∧
    ((g1.endTurn cur).1.players ≠ g1.players → (g1.heap cur).hand = [] ∧ g1.deck.cards = []) ∧
    (∀ (g2 : Game) (cur2 : Nat), (g2.checkPlayerWin cur2).1.players ≠ g2.players →
      (g2.heap cur2).hand = []) := by
  obtain ⟨-, -, htop, -⟩ := Cfg.loopHead_facts n pick acts g cur (by omega) hh
  refine ⟨g.loopPass_removal cur a g1 b hp htop, ?_, fun g2 cur2 => g2.checkPlayerWin_removal cur2⟩
  intro hne
  have hempty := g1.endTurn_removal cur hne
  refine ⟨hempty, ?_⟩
  rcases g.loopPass_topped cur a g1 b hp with h3 | h0
  · rw [hempty] at h3
    simp at h3
  · exact h0

set_option maxRecDepth 100000 in
/-- C20 at a concrete input: in the three-player game dealt from the unshuffled deck, player 0
plays its last card, the 9 of spades, with the deck empty; the `checkPlayerWin` after the
loop removes player 0. -/
theorem no_elimination_while_deck_has_cards_witness :
    2 ≤ 3 ∧ 3 ≤ 5 ∧
    ((Cfg.start 3 pickLast).run answersLastNine).loopHead? = some (stateLastNine, 0) ∧
    stateLastNine.loopPass 0 (.play (some 0)) = .completed stateLastNinePlayed true ∧
    ((stateLastNinePlayed.players ≠ stateLastNine.players →
        stateLastNine.deck.cards = [] ∧ stateLastNinePlayed.deck.cards = []) ∧
    ((stateLastNinePlayed.endTurn 0).1.players ≠ stateLastNinePlayed.players →
        (stateLastNinePlayed.heap 0).hand = [] ∧ stateLastNinePlayed.deck.cards = []) ∧
    (∀ (g2 : Game) (cur2 : Nat), (g2.checkPlayerWin cur2).1.players ≠ g2.players →
      (g2.heap cur2).hand = [])) :=
  ⟨by decide, by decide, rfl, rfl,
    no_elimination_while_deck_has_cards 3 pickLast answersLastNine stateLastNine 0
      (.play (some 0)) stateLastNinePlayed true (by decide) (by decide) rfl rfl⟩

/-! ### The starting player is the holder of the lowest card -/

theorem Suit.ord_lt (s : Suit) : s.ord < 4 := by
  cases s <;> decide

theorem Suit.ord_injective (s t : Suit) (h : s.ord = t.ord) : s = t := by
  cases s <;> cases t <;> first | rfl | exact absurd h (by decide)

theorem Game.getCardNumericValue_injective (s t : Suit) (v w : Rank)
    (h : Game.getCardNumericValue ⟨s, v⟩ = Game.getCardNumericValue ⟨t, w⟩) : v = w := by
  cases v <;> cases w <;> first | rfl | (simp [Game.getCardNumericValue] at h)

theorem cardLess_iff_key (c d : Card) : cardLess c d ↔ cardKey c < cardKey d := by
  have h1 := c.suit.ord_lt
  have h2 := d.suit.ord_lt
  unfold cardLess cardKey
  omega

theorem cardKey_injective (c d : Card) (h : cardKey c = cardKey d) : c = d := by
  have h1 := c.suit.ord_lt
  have h2 := d.suit.ord_lt
  unfold cardKey at h
  have hv : Game.getCardNumericValue c = Game.getCardNumericValue d := by omega
  have ho : c.suit.ord = d.suit.ord := by omega
  cases c with
  | mk s v =>
    cases d with
    | mk t w =>
      have hs : s = t := Suit.ord_injective s t ho
      have hr : v = w := Game.getCardNumericValue_injective s t v w hv
      rw [hs, hr]

theorem Game.scanHand_eq_scanPairs (i : Nat) :
    ∀ (hand : List Slot) (acc : Lowest),
      Game.scanHand i hand acc = Game.scanPairs (hand.map (fun s => (i, s))) acc
  | [], acc => rfl
  | none :: _, acc => rfl
  | some card :: rest, acc => by
    simp only [Game.scanHand, List.map_cons, Game.scanPairs]
    split_ifs
    · exact Game.scanHand_eq_scanPairs i rest _
    · exact Game.scanHand_eq_scanPairs i rest _

theorem Game.scanPairs_append :
    ∀ (S1 S2 : List (Nat × Slot)) (acc : Lowest),
      Game.scanPairs (S1 ++ S2) acc =
        match Game.scanPairs S1 acc with
        | none => none
        | some acc1 => Game.scanPairs S2 acc1
  | [], S2, acc => rfl
  | (_, none) :: _, S2, acc => rfl
  | (i, some card) :: rest, S2, acc => by
    simp only [List.cons_append, Game.scanPairs]
    split_ifs
    · exact Game.scanPairs_append rest S2 _
    · exact Game.scanPairs_append rest S2 _

theorem Game.scanPlayers_eq_scanPairs (g : Game) :
    ∀ (l : List Nat) (i : Nat) (acc : Lowest),
      g.scanPlayers i l acc = Game.scanPairs (g.pairsFrom i l) acc
  | [], i, acc => rfl
  | r :: rs, i, acc => by
    simp only [Game.scanPlayers, Game.pairsFrom, Game.scanPairs_append, Game.obj_eq,
      Game.scanHand_eq_scanPairs]
    cases Game.scanPairs (List.map (fun s => (i, s)) (g.heap r).hand) acc with
    | none => rfl
    | some acc1 => exact Game.scanPlayers_eq_scanPairs g rs (i + 1) acc1

theorem Game.pairsFrom_snd (g : Game) :
    ∀ (l : List Nat) (i : Nat),
      (g.pairsFrom i l).map Prod.snd = (l.map (fun r => (g.heap r).hand)).flatten
  | [], i => rfl
  | r :: rs, i => by
    simp only [Game.pairsFrom, List.map_append, List.map_map, List.map_cons, List.flatten_cons,
      Game.pairsFrom_snd g rs (i + 1)]
    congr 1
    exact List.map_id _

theorem Game.mem_pairsFrom (g : Game) :
    ∀ (l : List Nat) (i j : Nat) (s : Slot),
      (j, s) ∈ g.pairsFrom i l ↔ ∃ r, i ≤ j ∧ l[j - i]? = some r ∧ s ∈ (g.heap r).hand
  | [], i, j, s => by simp [Game.pairsFrom]
  | r :: rs, i, j, s => by
    simp only [Game.pairsFrom, List.mem_append, List.mem_map, Prod.mk.injEq,
      Game.mem_pairsFrom g rs (i + 1) j s]
    constructor
    · rintro (⟨s1, hs1, rfl, rfl⟩ | ⟨r1, hle, hget, hmem⟩)
      · exact ⟨r, le_refl _, by simp, hs1⟩
      · refine ⟨r1, by omega, ?_, hmem⟩
        have : j - i = (j - (i + 1)) + 1 := by omega
        rw [this, List.getElem?_cons_succ]
        exact hget
    · rintro ⟨r1, hle, hget, hmem⟩
      rcases Nat.eq_or_lt_of_le hle with heq | hlt
      · left
        subst heq
        simp only [Nat.sub_self, List.getElem?_cons_zero, Option.some.injEq] at hget
        subst hget
        exact ⟨s, hmem, rfl, rfl⟩
      · right
        refine ⟨r1, by omega, ?_, hmem⟩
        have : j - i = (j - (i + 1)) + 1 := by omega
        rw [this, List.getElem?_cons_succ] at hget
        exact hget

theorem Lowest.Best.update {acc : Lowest} {T : List (Nat × Slot)} (h : acc.Best T) (i : Nat)
    (c : Card)
    (hcond : valueLess (Game.getCardNumericValue c) acc.lowestCardValue = true ∨
      (acc.lowestCardValue = some (Game.getCardNumericValue c) ∧
        suitLess c.suit acc.lowestSuit = true)) :
    Lowest.Best ⟨some (Game.getCardNumericValue c), some c.suit, i⟩ (T ++ [(i, some c)]) := by
  right
  refine ⟨i, c, by simp, rfl, ?_⟩
  intro j d hd
  rcases List.mem_append.mp hd with hT | hlast
  · rcases h with ⟨hnil, -⟩ | ⟨ip, p, -, hacc, hmin⟩
    · rw [hnil] at hT
      simp at hT
    · have hless : cardLess c p := by
        rw [hacc] at hcond
        simp only [valueLess, suitLess, decide_eq_true_eq, Option.some.injEq] at hcond
        unfold cardLess
        rcases hcond with h1 | ⟨h1, h2⟩
        · exact Or.inl h1
        · exact Or.inr ⟨h1.symm, h2⟩
      have := (cardLess_iff_key c p).mp hless
      have := hmin j d hT
      omega
  · simp only [List.mem_singleton, Prod.mk.injEq, Option.some.injEq] at hlast
    rw [hlast.2]

theorem Lowest.Best.keep {acc : Lowest} {T : List (Nat × Slot)} (h : acc.Best T) (i : Nat)
    (c : Card)
    (hcond : ¬ (valueLess (Game.getCardNumericValue c) acc.lowestCardValue = true ∨
      (acc.lowestCardValue = some (Game.getCardNumericValue c) ∧
        suitLess c.suit acc.lowestSuit = true))) :
    acc.Best (T ++ [(i, some c)]) := by
  rcases h with ⟨-, hnone⟩ | ⟨ip, p, hp, hacc, hmin⟩
  · exfalso
    apply hcond
    left
    rw [hnone]
    rfl
  · right
    refine ⟨ip, p, List.mem_append.mpr (Or.inl hp), hacc, ?_⟩
    intro j d hd
    rcases List.mem_append.mp hd with hT | hlast
    · exact hmin j d hT
    · simp only [List.mem_singleton, Prod.mk.injEq, Option.some.injEq] at hlast
      rw [hlast.2]
      have hnot : ¬ cardLess c p := by
        intro hless
        apply hcond
        rw [hacc]
        simp only [valueLess, suitLess, decide_eq_true_eq, Option.some.injEq]
        rcases hless with h1 | ⟨h1, h2⟩
        · exact Or.inl h1
        · exact Or.inr ⟨h1.symm, h2⟩
      rw [cardLess_iff_key] at hnot
      omega

theorem Game.scanPairs_best :
    ∀ (S T : List (Nat × Slot)) (acc : Lowest), (∀ p ∈ S, p.2 ≠ none) → acc.Best T →
      ∃ acc1, Game.scanPairs S acc = some acc1 ∧ acc1.Best (T ++ S)
  | [], T, acc, _, hb => ⟨acc, rfl, by simpa using hb⟩
  | (i, none) :: rest, T, acc, hall, _ => absurd rfl (hall (i, none) (by simp))
  | (i, some c) :: rest, T, acc, hall, hb => by
    have hrest : ∀ p ∈ rest, p.2 ≠ none := fun p hp => hall p (List.mem_cons_of_mem _ hp)
    have happ : T ++ (i, some c) :: rest = (T ++ [(i, some c)]) ++ rest := by simp
    simp only [Game.scanPairs]
    rw [happ]
    split_ifs with hcond
    · exact Game.scanPairs_best rest _ _ hrest (hb.update i c hcond)
    · exact Game.scanPairs_best rest _ _ hrest (hb.keep i c hcond)

/-- C17: when the hands of the players of the active list hold cards that are pairwise
distinct (no `undefined` among them), and at least one card, `setStartingPlayer` returns
normally and changes nothing but `currentPlayerIndex`, which it sets to the position `i`
in the list of the one player who holds the card `m` that comes before every other card
held, in the order: lower value first (a 2 counting 15), then suit name earlier in the
alphabet (Clubs, Diamonds, Hearts, Spades). -/
theorem setStartingPlayer_lowest_card (g : Game) (cs : List Card)
    (hcs : (g.players.map (fun r => (g.heap r).hand)).flatten = cs.map some)
    (hnd : cs.Nodup) (hne : cs ≠ []) :
    ∃ i r m, g.players[i]? = some r ∧ some m ∈ (g.heap r).hand ∧
      g.setStartingPlayer = some { g with currentPlayerIndex := some i } ∧
      (∀ c ∈ cs, c = m ∨ cardLess m c) ∧
      (∀ j r1, g.players[j]? = some r1 → some m ∈ (g.heap r1).hand → j = i) := by
  have hsnd : (g.pairsFrom 0 g.players).map Prod.snd = cs.map some :=
    (g.pairsFrom_snd g.players 0).trans hcs
  have hall : ∀ p ∈ g.pairsFrom 0 g.players, p.2 ≠ none := by
    intro p hp hnone
    have : p.2 ∈ (g.pairsFrom 0 g.players).map Prod.snd := List.mem_map_of_mem _ hp
    rw [hsnd, hnone] at this
    simp at this
  obtain ⟨acc1, hscan, hbest⟩ :=
    Game.scanPairs_best (g.pairsFrom 0 g.players) [] ⟨none, none, 0⟩ hall (Or.inl ⟨rfl, rfl⟩)
  rw [List.nil_append] at hbest
  have hSne : g.pairsFrom 0 g.players ≠ [] := by
    intro h0
    rw [h0] at hsnd
    simp only [List.map_nil] at hsnd
    exact hne (List.map_eq_nil_iff.mp hsnd.symm)
  rcases hbest with ⟨h0, -⟩ | ⟨i, m, hmem, hacc, hmin⟩
  · exact absurd h0 hSne
  · obtain ⟨r, -, hget, hhand⟩ := (g.mem_pairsFrom g.players 0 i (some m)).mp hmem
    rw [Nat.sub_zero] at hget
    refine ⟨i, r, m, hget, hhand, ?_, ?_, ?_⟩
    · unfold Game.setStartingPlayer
      rw [g.scanPlayers_eq_scanPairs, hscan, hacc]
    · intro c hc
      have hc' : some c ∈ (g.pairsFrom 0 g.players).map Prod.snd := by
        rw [hsnd]
        exact List.mem_map_of_mem _ hc
      obtain ⟨⟨j, s⟩, hp, hs⟩ := List.mem_map.mp hc'
      simp only at hs
      subst hs
      have hle := hmin j c hp
      rcases Nat.eq_or_lt_of_le hle with heq | hlt
      · exact Or.inl (cardKey_injective m c heq).symm
      · exact Or.inr ((cardLess_iff_key m c).mpr hlt)
    · intro j r1 hget1 hhand1
      have hmem1 : (j, some m) ∈ g.pairsFrom 0 g.players :=
        (g.mem_pairsFrom g.players 0 j (some m)).mpr ⟨r1, Nat.zero_le _, by simpa using hget1,
          hhand1⟩
      have hnd' : ((g.pairsFrom 0 g.players).map Prod.snd).Nodup := by
        rw [hsnd]
        exact hnd.map (Option.some_injective _)
      have := List.inj_on_of_nodup_map hnd' hmem1 hmem rfl
      simp only [Prod.mk.injEq, and_true] at this
      exact this

set_option maxRecDepth 100000 in
/-- C17 at a concrete input: in the new three-player game dealt from the unshuffled deck the
nine hand cards are distinct; the lowest is the 3 of spades, held by player 1. -/
theorem setStartingPlayer_lowest_card_witness :
    (((Game.new 3 pickLast).players.map
        (fun r => ((Game.new 3 pickLast).heap r).hand)).flatten =
      ([⟨.Spades, .K⟩, ⟨.Spades, .J⟩, ⟨.Spades, .r9⟩, ⟨.Spades, .r7⟩, ⟨.Spades, .r5⟩,
        ⟨.Spades, .r3⟩, ⟨.Clubs, .A⟩, ⟨.Clubs, .Q⟩, ⟨.Clubs, .r10⟩] : List Card).map some) ∧
    ([⟨.Spades, .K⟩, ⟨.Spades, .J⟩, ⟨.Spades, .r9⟩, ⟨.Spades, .r7⟩, ⟨.Spades, .r5⟩,
        ⟨.Spades, .r3⟩, ⟨.Clubs, .A⟩, ⟨.Clubs, .Q⟩, ⟨.Clubs, .r10⟩] : List Card).Nodup ∧
    ([⟨.Spades, .K⟩, ⟨.Spades, .J⟩, ⟨.Spades, .r9⟩, ⟨.Spades, .r7⟩, ⟨.Spades, .r5⟩,
        ⟨.Spades, .r3⟩, ⟨.Clubs, .A⟩, ⟨.Clubs, .Q⟩, ⟨.Clubs, .r10⟩] : List Card) ≠ [] ∧
    ∃ i r m, (Game.new 3 pickLast).players[i]? = some r ∧
      some m ∈ ((Game.new 3 pickLast).heap r).hand ∧
      (Game.new 3 pickLast).setStartingPlayer =
        some { Game.new 3 pickLast with currentPlayerIndex := some i } ∧
      (∀ c ∈ ([⟨.Spades, .K⟩, ⟨.Spades, .J⟩, ⟨.Spades, .r9⟩, ⟨.Spades, .r7⟩, ⟨.Spades, .r5⟩,
        ⟨.Spades, .r3⟩, ⟨.Clubs, .A⟩, ⟨.Clubs, .Q⟩, ⟨.Clubs, .r10⟩] : List Card),
        c = m ∨ cardLess m c) ∧
      (∀ j r1, (Game.new 3 pickLast).players[j]? = some r1 →
        some m ∈ ((Game.new 3 pickLast).heap r1).hand → j = i) :=
  ⟨by decide!, by decide, by decide,
    setStartingPlayer_lowest_card (Game.new 3 pickLast) _ (by decide!) (by decide) (by decide)⟩

/-! ### The cards in play only become fewer -/

theorem Game.sum_own_split (g : Game) (cur : Nat) (l : List Nat) (h : cur ∈ l) :
    (l.map (fun r => (g.heap r).own)).sum =
      (g.heap cur).own + ((l.erase cur).map (fun r => (g.heap r).own)).sum := by
  have hp := (List.perm_cons_erase h).map (fun r => (g.heap r).own)
  rw [hp.sum_eq, List.map_cons, List.sum_cons]

theorem Game.sum_own_le (g : Game) (cur : Nat) (l : List Nat) :
    (l.map (fun r => (g.heap r).own)).sum ≤
      (g.heap cur).own + ((l.erase cur).map (fun r => (g.heap r).own)).sum := by
  by_cases h : cur ∈ l
  · exact le_of_eq (g.sum_own_split cur l h)
  · rw [List.erase_of_not_mem h]
    exact Multiset.le_add_left _ _

theorem Game.Moves.sum_own_erase_le {cur : Nat} {g g1 : Game} (hm : Game.Moves cur g g1)
    (hnd : g.players.Nodup) :
    ((g1.players.erase cur).map (fun r => (g1.heap r).own)).sum ≤
      ((g.players.erase cur).map (fun r => (g.heap r).own)).sum := by
  have hnd1 : g1.players.Nodup := List.Nodup.sublist hm.players hnd
  have hsame : (g1.players.erase cur).map (fun r => (g1.heap r).own) =
      (g1.players.erase cur).map (fun r => (g.heap r).own) := by
    apply List.map_congr_left
    intro r hr
    have hne : r ≠ cur := (hnd1.mem_erase_iff.mp hr).1
    rw [hm.frame r hne]
  rw [hsame]
  exact ((hm.players.erase cur).map _).sum_le_sum (fun a _ => Multiset.zero_le a)

/-- A turn of a player of the active list takes no card into play. -/
theorem Game.Moves.inPlay_le {cur : Nat} {g g1 : Game} (hm : Game.Moves cur g g1)
    (hnd : g.players.Nodup) (hin : cur ∈ g.players) :
    (↑(g1.cardsInPlay ++ g1.tableCards) : Multiset Slot) ≤ ↑(g.cardsInPlay ++ g.tableCards) := by
  rw [g1.coe_cardsInPlay, g.coe_cardsInPlay, g.sum_own_split cur g.players hin, hm.table]
  have h1 := g1.sum_own_le cur g1.players
  have h2 := hm.sum_own_erase_le hnd
  have h3 := hm.bag
  unfold Game.localBag at h3
  calc (↑(g1.deck.cards.map some) : Multiset Slot) + ↑(g1.playedCardsDeck.map some) +
          ↑g.tableCards + (g1.players.map (fun r => (g1.heap r).own)).sum
      ≤ ↑(g1.deck.cards.map some) + ↑(g1.playedCardsDeck.map some) + ↑g.tableCards +
          ((g1.heap cur).own + ((g1.players.erase cur).map (fun r => (g1.heap r).own)).sum) :=
        add_le_add_left h1 _
    _ = (↑(g1.deck.cards.map some) + ↑(g1.playedCardsDeck.map some) + (g1.heap cur).own) +
          (↑g.tableCards + ((g1.players.erase cur).map (fun r => (g1.heap r).own)).sum) := by
        abel
    _ ≤ (↑(g.deck.cards.map some) + ↑(g.playedCardsDeck.map some) + (g.heap cur).own) +
          (↑g.tableCards + ((g.players.erase cur).map (fun r => (g.heap r).own)).sum) :=
        add_le_add h3 (add_le_add_left h2 _)
    _ = _ := by abel

/-- What a player object outside the active list does takes no card into play, if deck and
discard pile together gain none. -/
theorem Game.Moves.inPlay_le_of_not_mem {cur : Nat} {g g1 : Game} (hm : Game.Moves cur g g1)
    (hnd : g.players.Nodup) (hout : cur ∉ g.players)
    (hdp : (↑(g1.deck.cards.map some) : Multiset Slot) + ↑(g1.playedCardsDeck.map some) ≤
      ↑(g.deck.cards.map some) + ↑(g.playedCardsDeck.map some)) :
    (↑(g1.cardsInPlay ++ g1.tableCards) : Multiset Slot) ≤ ↑(g.cardsInPlay ++ g.tableCards) := by
  rw [g1.coe_cardsInPlay, g.coe_cardsInPlay, hm.table]
  have h2 := hm.sum_own_erase_le hnd
  rw [List.erase_of_not_mem hout,
    List.erase_of_not_mem (fun h => hout (hm.players.subset h))] at h2
  exact add_le_add (add_le_add_right hdp _) h2

theorem Game.endTurn_inPlay (g : Game) (cur : Nat) (hnd : g.players.Nodup) :
    (↑((g.endTurn cur).1.cardsInPlay ++ (g.endTurn cur).1.tableCards) : Multiset Slot) ≤
      ↑(g.cardsInPlay ++ g.tableCards) := by
  by_cases hin : cur ∈ g.players
  · exact (g.endTurn_moves cur).inPlay_le hnd hin
  · refine (g.endTurn_moves cur).inPlay_le_of_not_mem hnd hin (le_of_eq ?_)
    simp

theorem Game.handlePlayCard_removal_hand (g : Game) (cur : Nat) (cardIndex : Option Int)
    (r : Game × Bool) (h : g.handlePlayCard cur cardIndex = some r)
    (hne : r.1.players ≠ g.players) : (r.1.heap cur).hand = [] := by
  cases cardIndex with
  | none =>
    simp only [Game.handlePlayCard, Option.some.injEq] at h
    subst h
    exact absurd rfl hne
  | some i =>
    by_cases hr : 0 ≤ i ∧ i < ((g.heap cur).hand.length : Int)
    · obtain ⟨h0, hlt⟩ := hr
      lift i to ℕ using h0
      have hk : i < (g.heap cur).hand.length := by exact_mod_cast hlt
      have hget : (g.heap cur).hand[i]? = some (g.heap cur).hand[i] :=
        List.getElem?_eq_getElem hk
      cases hs : (g.heap cur).hand[i] with
      | none =>
        rw [hs] at hget
        rw [g.handlePlayCard_undefined cur i hget] at h
        exact absurd h (by simp)
      | some c =>
        rw [hs] at hget
        rw [g.handlePlayCard_inRange cur i c hget] at h
        split_ifs at h with hv h10 hz
        · simp only [Option.some.injEq] at h
          subst h
          rw [Game.checkPlayerWin_heap]
          simpa using List.eq_nil_of_length_eq_zero hz
        · simp only [Option.some.injEq] at h
          subst h
          exact absurd rfl hne
        · simp only [Option.some.injEq] at h
          subst h
          exact absurd rfl hne
        · simp only [Option.some.injEq] at h
          subst h
          exact absurd rfl hne
    · rw [g.handlePlayCard_outOfRange cur i hr] at h
      simp only [Option.some.injEq] at h
      subst h
      exact absurd rfl hne

theorem Game.loopPass_removal_hand (g : Game) (cur : Nat) (a : Action) (g1 : Game) (b : Bool)
    (h : g.loopPass cur a = .completed g1 b) (htop : g.CurTopped cur)
    (hne : g1.players ≠ g.players) : (g1.heap cur).hand = [] := by
  have hdeck := (g.loopPass_removal cur a g1 b h htop hne).1
  unfold Game.loopPass at h
  split_ifs at h
  cases a with
  | draw playDrawn =>
    dsimp only at h
    split at h
    · exact absurd h (by simp)
    · rename_i r hr
      simp only [PassResult.completed.injEq] at h
      exfalso
      apply hne
      rw [← h.1, Game.ensureMinimumHandSize_players]
      exact (g.handleDraw_index cur playDrawn r hr).1
  | pickup =>
    simp only [PassResult.completed.injEq] at h
    exfalso
    apply hne
    rw [← h.1, Game.ensureMinimumHandSize_players]
    rfl
  | cancel => exact absurd h (by simp)
  | play cardIndex =>
    dsimp only at h
    split at h
    · exact absurd h (by simp)
    · rename_i r hr
      simp only [PassResult.completed.injEq] at h
      have hne1 : r.1.players ≠ g.players := by
        intro hp
        apply hne
        rw [← h.1, Game.ensureMinimumHandSize_players, hp]
      have hr0 : r.1.deck.cards = [] := by
        rw [(g.handlePlayCard_removal cur cardIndex r hr hne1).2, hdeck]
      rw [← h.1, r.1.ensureMinimumHandSize_of_topped cur (Or.inr hr0)]
      exact g.handlePlayCard_removal_hand cur cardIndex r hr hne1
  | invalid =>
    simp only [PassResult.completed.injEq] at h
    exfalso
    apply hne
    rw [← h.1, Game.ensureMinimumHandSize_players]

/-- One pass of the loop of `playTurn` takes no card into play, and leaves `currentPlayer`
in the active list or with an empty hand and the deck empty. -/
theorem Game.loopPass_inPlay (g : Game) (cur : Nat) (a : Action) (g1 : Game) (b : Bool)
    (hp : g.loopPass cur a = .completed g1 b) (hnd : g.players.Nodup)
    (htop : g.CurTopped cur) (hin : g.CurIn cur) :
    (↑(g1.cardsInPlay ++ g1.tableCards) : Multiset Slot) ≤ ↑(g.cardsInPlay ++ g.tableCards) ∧
      (b = false → g1.CurIn cur) := by
  have hm := g.loopPass_moves cur a g1 b hp
  by_cases hmem : cur ∈ g.players
  · refine ⟨hm.inPlay_le hnd hmem, fun _ => ?_⟩
    by_cases hpl : g1.players = g.players
    · left
      rw [hpl]
      exact hmem
    · right
      exact ⟨g.loopPass_removal_hand cur a g1 b hp htop hpl,
        (g.loopPass_removal cur a g1 b hp htop hpl).2⟩
  · obtain ⟨hh, hd⟩ := hin.resolve_left hmem
    have hprint : (g.heap cur).handPrintable = true := by
      unfold Player.handPrintable
      rw [hh]
      rfl
    have hrej : g.Rejected cur a → (↑(g1.cardsInPlay ++ g1.tableCards) : Multiset Slot) ≤
        ↑(g.cardsInPlay ++ g.tableCards) ∧ (b = false → g1.CurIn cur) := by
      intro hr
      rw [g.loopPass_rejected cur a hprint htop hr] at hp
      simp only [PassResult.completed.injEq] at hp
      rw [← hp.1]
      exact ⟨le_refl _, fun _ => Or.inr ⟨hh, hd⟩⟩
    cases a with
    | draw playDrawn => exact hrej hd
    | pickup =>
      have he : (g.handlePickup cur).1.ensureMinimumHandSize cur = (g.handlePickup cur).1 :=
        Game.ensureMinimumHandSize_of_topped _ cur (Or.inr hd)
      unfold Game.loopPass at hp
      rw [Game.obj_eq, if_pos hprint] at hp
      simp only [PassResult.completed.injEq] at hp
      rw [he] at hp
      refine ⟨?_, fun hb => ?_⟩
      · rw [← hp.1]
        refine (g.handlePickup_moves cur).inPlay_le_of_not_mem hnd hmem ?_
        simp only [Game.handlePickup, List.map_nil, Multiset.coe_nil, add_zero,
          Game.setObj_deck]
        exact Multiset.le_add_right _ _
      · rw [← hp.2] at hb
        exact absurd hb (by simp [Game.handlePickup])
    | cancel =>
      unfold Game.loopPass at hp
      rw [Game.obj_eq, if_pos hprint] at hp
      exact absurd hp (by simp)
    | play cardIndex =>
      cases cardIndex with
      | none => exact hrej trivial
      | some i =>
        apply hrej
        show ¬ (0 ≤ i ∧ i < ((g.heap cur).hand.length : Int))
        rw [hh]
        simp only [List.length_nil, Nat.cast_zero]
        omega
    | invalid => exact hrej trivial

theorem Game.loopPass_tableCards (g : Game) (cur : Nat) (a : Action) (g1 : Game) (b : Bool)
    (hp : g.loopPass cur a = .completed g1 b) : g1.tableCards = g.tableCards :=
  (g.loopPass_moves cur a g1 b hp).table

theorem Cfg.pass_inPlay (g : Game) (cur : Nat) (a : Action) (hnd : g.players.Nodup)
    (htop : g.CurTopped cur) (hin : g.CurIn cur) :
    (Cfg.pass g cur a).ActingIn ∧ ∀ g1, (Cfg.pass g cur a).game? = some g1 →
      (↑(g1.cardsInPlay ++ g1.tableCards) : Multiset Slot) ≤ ↑(g.cardsInPlay ++ g.tableCards) ∧
        g1.tableCards = g.tableCards := by
  unfold Cfg.pass
  split
  · exact ⟨trivial, fun g1 h => by simp [Cfg.game?] at h⟩
  · rename_i g1 hp
    refine ⟨trivial, fun g2 h => ?_⟩
    simp only [Cfg.game?, Option.some.injEq] at h
    rw [← h, g.loopPass_cancelled cur a g1 hp]
    exact ⟨le_refl _, rfl⟩
  · rename_i g1 hp
    obtain ⟨hle, hcur⟩ := g.loopPass_inPlay cur a g1 false hp hnd htop hin
    refine ⟨hcur rfl, fun g2 h => ?_⟩
    simp only [Cfg.game?, Option.some.injEq] at h
    rw [← h]
    exact ⟨hle, g.loopPass_tableCards cur a g1 false hp⟩
  · rename_i g1 hp
    obtain ⟨hle, -⟩ := g.loopPass_inPlay cur a g1 true hp hnd htop hin
    have hnd1 : g1.players.Nodup :=
      List.Nodup.sublist (g.loopPass_moves cur a g1 true hp).players hnd
    have hle2 := le_trans (g1.endTurn_inPlay cur hnd1) hle
    have htab : (g1.endTurn cur).1.tableCards = g.tableCards := by
      rw [(g1.endTurn_moves cur).table, g.loopPass_tableCards cur a g1 true hp]
    split_ifs
    · refine ⟨trivial, fun g2 h => ?_⟩
      simp only [Cfg.game?, Option.some.injEq] at h
      rw [← h]
      exact ⟨hle2, htab⟩
    · refine ⟨trivial, fun g2 h => ?_⟩
      simp only [Cfg.game?, Option.some.injEq] at h
      rw [← h]
      exact ⟨hle2, htab⟩

theorem Cfg.step_inPlay {n : Nat} {B : Multiset Slot} (c : Cfg) (a : Action) (hinv : c.Inv n B)
    (htop : c.ActingTopped) (hin : c.ActingIn) :
    (c.step a).ActingIn ∧ ∀ g g1, c.game? = some g → (c.step a).game? = some g1 →
      (↑(g1.cardsInPlay ++ g1.tableCards) : Multiset Slot) ≤ ↑(g.cardsInPlay ++ g.tableCards) ∧
        g1.tableCards = g.tableCards := by
  cases c with
  | idle g0 =>
    obtain ⟨hs, -⟩ := hinv
    have hnd : g0.players.Nodup := List.Nodup.sublist hs.refs (List.nodup_range n)
    unfold Cfg.step
    dsimp only
    split_ifs
    · refine ⟨trivial, fun g g1 hg hg1 => ?_⟩
      simp only [Cfg.game?, Option.some.injEq] at hg hg1
      rw [← hg, ← hg1]
      exact ⟨le_refl _, rfl⟩
    · split
      · exact ⟨trivial, fun g g1 _ hg1 => by simp [Cfg.game?] at hg1⟩
      · rename_i cur hcur
        have hmem : cur ∈ g0.players := by
          unfold Game.currentPlayer at hcur
          split at hcur
          · exact absurd hcur (by simp)
          · exact List.getElem?_mem hcur
        obtain ⟨h1, h2⟩ := Cfg.pass_inPlay g0 cur a hnd (hs.topped cur hmem) (Or.inl hmem)
        refine ⟨h1, fun g g1 hg hg1 => ?_⟩
        simp only [Cfg.game?, Option.some.injEq] at hg
        rw [← hg]
        exact h2 g1 hg1
  | acting g0 cur =>
    obtain ⟨hs, -, -⟩ := hinv
    have hnd : g0.players.Nodup := List.Nodup.sublist hs.refs (List.nodup_range n)
    obtain ⟨h1, h2⟩ := Cfg.pass_inPlay g0 cur a hnd htop hin
    refine ⟨h1, fun g g1 hg hg1 => ?_⟩
    simp only [Cfg.game?, Option.some.injEq] at hg
    rw [← hg]
    exact h2 g1 hg1
  | over g0 =>
    refine ⟨trivial, fun g g1 hg hg1 => ?_⟩
    simp only [Cfg.step, Cfg.game?, Option.some.injEq] at hg hg1
    rw [← hg, ← hg1]
    exact ⟨le_refl _, rfl⟩
  | crashed => exact ⟨trivial, fun g g1 hg _ => by simp [Cfg.game?] at hg⟩

theorem Cfg.run_append_singleton (c : Cfg) (acts : List Action) (a : Action) :
    c.run (acts ++ [a]) = (c.run acts).step a := by
  simp [Cfg.run, List.foldl_append]

theorem Cfg.actingIn_run (n : Nat) (pick : Nat → Nat) (acts : List Action) :
    ((Cfg.start n pick).run acts).ActingIn := by
  induction acts using List.reverseRecOn with
  | nil =>
    unfold Cfg.start Cfg.run
    simp only [List.foldl_nil]
    split <;> trivial
  | append_singleton rest a ih =>
    rw [Cfg.run_append_singleton]
    exact (Cfg.step_inPlay _ a (Cfg.Inv.run n pick rest) (Cfg.actingTopped_run n pick rest) ih).1

/-- Between two points of a run of the script no card comes into play and the table cards
stay as they are. -/
theorem Cfg.run_inPlay (n : Nat) (pick : Nat → Nat) (acts more : List Action) (g g2 : Game)
    (hg : ((Cfg.start n pick).run acts).game? = some g)
    (hg2 : ((Cfg.start n pick).run (acts ++ more)).game? = some g2) :
    (↑(g2.cardsInPlay ++ g2.tableCards) : Multiset Slot) ≤ ↑(g.cardsInPlay ++ g.tableCards) ∧
      g2.tableCards = g.tableCards := by
  induction more using List.reverseRecOn generalizing g2 with
  | nil =>
    rw [List.append_nil, hg] at hg2
    simp only [Option.some.injEq] at hg2
    rw [← hg2]
    exact ⟨le_refl _, rfl⟩
  | append_singleton rest a ih =>
    rw [← List.append_assoc, Cfg.run_append_singleton] at hg2
    cases hmid : ((Cfg.start n pick).run (acts ++ rest)).game? with
    | none =>
      exfalso
      cases hc : (Cfg.start n pick).run (acts ++ rest) with
      | idle g0 => rw [hc] at hmid; simp [Cfg.game?] at hmid
      | acting g0 cur => rw [hc] at hmid; simp [Cfg.game?] at hmid
      | over g0 => rw [hc] at hmid; simp [Cfg.game?] at hmid
      | crashed => rw [hc] at hg2; simp [Cfg.step, Cfg.game?] at hg2
    | some g1 =>
      obtain ⟨hle1, htab1⟩ := ih g1 hmid
      obtain ⟨hle2, htab2⟩ := (Cfg.step_inPlay _ a (Cfg.Inv.run n pick (acts ++ rest))
        (Cfg.actingTopped_run n pick (acts ++ rest))
        (Cfg.actingIn_run n pick (acts ++ rest))).2 g1 g2 hmid hg2
      exact ⟨le_trans hle2 hle1, htab2.trans htab1⟩

/-- C2, as the code has it: at every point of a game of 1 to 5 players the values held by the
deck, the hands and face-down sets of the active players, the discard pile and the table
cards are cards of the 52-card deck, no card occurring twice and no `undefined` among them,
so that there are at most 52 of them; in the new game they are exactly the 52 cards, three
of them being the table cards; and between two points of a run the count never rises: at
every later point the table cards are the same, and the cards of the deck, the hands and
face-down sets of the active players and the discard pile are among those held there at
the earlier point, each at most as often, so that there are at most as many of them. -/
theorem cards_in_play_distinct (n : Nat) (pick : Nat → Nat) (acts : List Action) (g : Game)
    (h1 : 1 ≤ n) (h5 : n ≤ 5) (hg : ((Cfg.start n pick).run acts).game? = some g) :
    ((g.cardsInPlay ++ g.tableCards).Nodup ∧
      (∀ s ∈ g.cardsInPlay ++ g.tableCards, ∃ c ∈ Deck.createDeck.cards, s = some c) ∧
      (g.cardsInPlay ++ g.tableCards).length ≤ 52) ∧
    List.Perm ((Game.new n pick).cardsInPlay ++ (Game.new n pick).tableCards)
      (Deck.createDeck.cards.map some) ∧
    (Game.new n pick).tableCards.length = 3 ∧
    (∀ (more : List Action) (g2 : Game),
      ((Cfg.start n pick).run (acts ++ more)).game? = some g2 →
        g2.tableCards = g.tableCards ∧
        List.Subperm g2.cardsInPlay g.cardsInPlay ∧
        g2.cardsInPlay.length ≤ g.cardsInPlay.length ∧
        (g2.cardsInPlay ++ g2.tableCards).length ≤ (g.cardsInPlay ++ g.tableCards).length) := by
  have hfull : (Game.new n pick).bag n = ↑(Deck.createDeck.cards.map some) :=
    Game.new_bag n pick (by omega)
  refine ⟨?_, ?_, Game.new_tableCards_length n pick, ?_⟩
  · have hs : g.Sound n ((Game.new n pick).bag n) := (Cfg.Inv.run n pick acts).sound g hg
    have hle : (↑(g.cardsInPlay ++ g.tableCards) : Multiset Slot) ≤
        ↑(Deck.createDeck.cards.map some) :=
      hfull ▸ le_trans (g.cardsInPlay_le_bag n hs.refs) hs.bag
    refine ⟨?_, ?_, ?_⟩
    · exact Multiset.coe_nodup.mp
        (Multiset.nodup_of_le hle (Multiset.coe_nodup.mpr Deck.createDeck_nodup))
    · intro s hs'
      have hmem : s ∈ (↑(Deck.createDeck.cards.map some) : Multiset Slot) :=
        Multiset.mem_of_le hle (Multiset.mem_coe.mpr hs')
      obtain ⟨c, hc, hcs⟩ := List.mem_map.mp (Multiset.mem_coe.mp hmem)
      exact ⟨c, hc, hcs.symm⟩
    · have := Multiset.card_le_card hle
      simpa [Deck.createDeck_length] using this
  · apply Multiset.coe_eq_coe.mp
    rw [Game.cardsInPlay_eq_bag n _ (Game.new_players n pick), hfull]
  · intro more g2 hg2
    obtain ⟨hle, htab⟩ := Cfg.run_inPlay n pick acts more g g2 hg hg2
    have hsub : (↑g2.cardsInPlay : Multiset Slot) ≤ ↑g.cardsInPlay := by
      rw [← Multiset.coe_add, ← Multiset.coe_add, htab] at hle
      exact le_of_add_le_add_right hle
    have hsp : g2.cardsInPlay.Subperm g.cardsInPlay := Multiset.coe_le.mp hsub
    refine ⟨htab, hsp, hsp.length_le, ?_⟩
    rw [List.length_append, List.length_append, htab]
    exact Nat.add_le_add_right hsp.length_le _

set_option maxRecDepth 100000 in
/-- C2 (as the code has it) at a concrete input: the three-player game dealt from the
unshuffled deck, at the start of the game loop; the later points are then all the points
of the game. -/
theorem cards_in_play_distinct_witness :
    1 ≤ 3 ∧ 3 ≤ 5 ∧
    ((Cfg.start 3 pickLast).run []).game? =
      some { Game.new 3 pickLast with currentPlayerIndex := some 1 } ∧
    ((((Game.new 3 pickLast).cardsInPlay ++ (Game.new 3 pickLast).tableCards).Nodup ∧
      (∀ s ∈ (Game.new 3 pickLast).cardsInPlay ++ (Game.new 3 pickLast).tableCards,
        ∃ c ∈ Deck.createDeck.cards, s = some c) ∧
      ((Game.new 3 pickLast).cardsInPlay ++ (Game.new 3 pickLast).tableCards).length ≤ 52) ∧
    List.Perm ((Game.new 3 pickLast).cardsInPlay ++ (Game.new 3 pickLast).tableCards)
      (Deck.createDeck.cards.map some) ∧
    (Game.new 3 pickLast).tableCards.length = 3 ∧
    (∀ (more : List Action) (g2 : Game),
      ((Cfg.start 3 pickLast).run ([] ++ more)).game? = some g2 →
        g2.tableCards = (Game.new 3 pickLast).tableCards ∧
        List.Subperm g2.cardsInPlay (Game.new 3 pickLast).cardsInPlay ∧
        g2.cardsInPlay.length ≤ (Game.new 3 pickLast).cardsInPlay.length ∧
        (g2.cardsInPlay ++ g2.tableCards).length ≤
          ((Game.new 3 pickLast).cardsInPlay ++ (Game.new 3 pickLast).tableCards).length)) :=
  ⟨by decide, by decide, rfl,
    cards_in_play_distinct 3 pickLast [] { Game.new 3 pickLast with currentPlayerIndex := some 1 }
      (by decide) (by decide) rfl⟩

/-! ### What the code does when a hand runs empty -/

set_option maxRecDepth 100000 in
/-- C6, evaluated: three players `[0, 1, 2]`, player 0 to move with one card (a 9) and the
deck empty. Player 0 plays it; `playTurn` returns without ending the game, the active list
is `[1, 2]`, and `currentPlayerIndex` is 1, which designates player 2: player 1, who
followed player 0, is passed over. -/
theorem playTurn_after_elimination_designates_second_follower :
    ∃ g, (Cfg.start 3 pickLast).run answersLastNine = .idle g ∧
      (g.players, g.currentPlayerIndex, (g.heap 0).hand, g.deck.cards) =
        ([0, 1, 2], some 0, [some ⟨.Spades, .r9⟩], []) ∧
      ∃ g1 rest, g.playTurn [.play (some 0)] = .returned g1 false rest ∧
        (g1.players, g1.currentPlayerIndex, g1.currentPlayer) = ([1, 2], some 1, some 2) :=
  ⟨_, rfl, by decide!, _, _, rfl, by decide!⟩

set_option maxRecDepth 100000 in
/-- C7, evaluated: two players `[0, 1]`, player 0 (index 0) to move with one card, a 10, and
the deck empty. Player 0 plays it, leaving player 1 as the only active player; yet
`playTurn` does not return `true`, and the active list it leaves is empty, so that
`isGameOver()` is false and `currentPlayerIndex` is `NaN`. -/
theorem playTurn_burn_removes_last_player :
    ∃ g, (Cfg.start 2 pickLast).run answersTwoLastTen = .idle g ∧
      (g.players, g.currentPlayerIndex, (g.heap 0).hand, g.deck.cards) =
        ([0, 1], some 0, [some ⟨.Clubs, .r10⟩], []) ∧
      ∃ g1 rest, g.playTurn [.play (some 0)] = .returned g1 false rest ∧
        (g1.players, g1.isGameOver, g1.currentPlayerIndex) = ([], false, none) :=
  ⟨_, rfl, by decide!, _, _, rfl, by decide!⟩

set_option maxRecDepth 100000 in
/-- C8, evaluated: three players `[0, 1, 2]`, player 2 to move with one card, a 10, and the
deck empty. Player 2 plays it and is removed from the active list, but the turn does not
end: `playTurn` is back at its action prompt with `currentPlayer` still player 2. -/
theorem playTurn_burn_keeps_removed_player_in_turn :
    ∃ g, (Cfg.start 3 pickLast).run answersLastTen = .idle g ∧
      (g.players, g.currentPlayerIndex, (g.heap 2).hand, g.deck.cards) =
        ([0, 1, 2], some 2, [some ⟨.Clubs, .r10⟩], []) ∧
      ∃ g1, g.playTurn [.play (some 0)] = .waiting g1 ∧
        Cfg.step (.idle g) (.play (some 0)) = .acting g1 2 ∧
        (g1.players, g1.currentPlayerIndex, (g1.heap 2).hand) = ([0, 1], some 0, []) :=
  ⟨_, rfl, by decide!, _, rfl, rfl, by decide!⟩

set_option maxRecDepth 100000 in
/-- C9, evaluated: in the three-player game above, after player 2 has played its last card,
a 10, the turn goes on with player 2, who picks up the empty pile. The `checkPlayerWin`
that follows tests the empty hand of player 2 and removes the entry at
`currentPlayerIndex`, which is player 0, holding five cards. -/
theorem checkPlayerWin_removes_player_holding_cards :
    ∃ g, (Cfg.start 3 pickLast).run (answersLastTen ++ [.play (some 0)]) = .acting g 2 ∧
      ∃ g1, g.loopPass 2 .pickup = .completed g1 true ∧
        (g1.players, g1.currentPlayerIndex, (g1.heap 2).hand, (g1.heap 0).hand.length) =
          ([0, 1], some 0, [], 5) ∧
        (g1.checkPlayerWin 2).1.players = [1] :=
  ⟨_, rfl, _, rfl, by decide!, by decide!⟩

set_option maxRecDepth 100000 in
/-- C5 as stated fails at the end of a game: two players, player 1 (index 1) plays its last
card, which is not a 10. `checkPlayerWin` removes it, finds one player left and returns
`true` without touching the index: the active list is `[0]` and `currentPlayerIndex` is 1. -/
theorem currentPlayerIndex_stale_after_game_end :
    ∃ g, (Cfg.start 2 pickLast).run answersTwoToTheEnd = .over g ∧
      (g.players, g.currentPlayerIndex) = ([0], some 1) ∧ ¬ g.ValidIndex :=
  ⟨_, rfl, by decide!, Game.not_validIndex_of _ 1 (by decide!) (by decide!)⟩

end PoopieHead
